import Mathlib

/-!
# tpm2_nvundefine: a shallow embedding of `tools/tpm2_nvundefine.c`

The tool keeps one static context structure and talks to the TPM software
stack through library calls whose bodies are not part of this source file.
The embedding threads the context explicitly, takes every library call (and
every constant that comes from a header) as a field of `Lib`, and records each
library call, with its arguments and its returned status, in a call history.
Every library call receives the history so far, so that its answer may depend
on everything that happened before (the TPM is stateful).
-/

namespace NvUndefine

/-! ## Data model -/

/-- Modelled from the spec: the return codes of the tool (`tool_rc`), whose
enumeration is declared in a header outside this source file. The tool names
success, the general error (a failed digest write) and the option error (a
configuration error); the other codes are errors of the library calls that
the tool passes through. -/
inductive tool_rc
  | tool_rc_success
  | tool_rc_general_error
  | tool_rc_option_error
  | tool_rc_auth_error
  | tool_rc_tcti_error
  | tool_rc_unsupported
  deriving DecidableEq, Repr

open tool_rc

/-- Number of session slots fed to the parameter-hash computation. -/
def MAX_SESSIONS : Nat := 3

/-- Number of auxiliary session slots. -/
def MAX_AUX_SESSIONS : Nat := 2

/-- A session object (`tpm2_session`), identified by a number; a pointer to
one is an `Option`, `none` being the null pointer. -/
abbrev tpm2_session := Nat

/-- A C array of `MAX_AUX_SESSIONS` elements. -/
structure Arr2 (α : Type) where
  e0 : α
  e1 : α
  deriving DecidableEq, Repr

/-- Read of element `i`; an index outside the array reads `d`. -/
def Arr2.get {α : Type} (a : Arr2 α) (i : Nat) (d : α) : α :=
  if i = 0 then a.e0 else if i = 1 then a.e1 else d

/-- Store of `v` at element `i`; a store outside the array leaves both
elements as they are. -/
def Arr2.set {α : Type} (a : Arr2 α) (i : Nat) (v : α) : Arr2 α :=
  if i = 0 then { a with e0 := v } else if i = 1 then { a with e1 := v } else a

/-- Modelled from the spec: a loaded object (`tpm2_loaded_object`, declared
outside this source file), the resolved object handles and the session bound
to the object. -/
structure tpm2_loaded_object where
  handle : Nat
  tr_handle : Nat
  session : Option tpm2_session
  deriving DecidableEq, Repr

/-- Modelled from the spec: a digest (`TPM2B_DIGEST`, declared outside this
source file), a sized binary blob. -/
structure TPM2B_DIGEST where
  size : Nat
  buffer : List Nat
  deriving DecidableEq, Repr

/-- The `auth_hierarchy` member of the context. -/
structure auth_hierarchy_t where
  ctx_path : Option String
  auth_str : Option String
  object : tpm2_loaded_object
  deriving DecidableEq, Repr

/-- The `policy_session` member of the context. -/
structure policy_session_t where
  path : Option String
  session : Option tpm2_session
  deriving DecidableEq, Repr

/-- The tool context (`struct tpm_nvundefine_ctx`). -/
structure tpm_nvundefine_ctx where
  auth_hierarchy : auth_hierarchy_t
  policy_session : policy_session_t
  is_auth_hierarchy_specified : Bool
  nv_index : Nat
  has_policy_delete_set : Bool
  cp_hash_path : Option String
  cp_hash : TPM2B_DIGEST
  rp_hash_path : Option String
  rp_hash : TPM2B_DIGEST
  is_command_dispatch : Bool
  parameter_hash_algorithm : Nat
  aux_session_cnt : Nat
  aux_session : Arr2 (Option tpm2_session)
  aux_session_path : Arr2 (Option String)
  aux_session_handle : Arr2 Nat
  deriving DecidableEq, Repr

/-- The session slot whose address is handed to `tpm2_session_close`. -/
inductive SessionSlot
  | policy_session
  | auth_hierarchy
  | aux (i : Nat)
  deriving DecidableEq, Repr

/-- One library call, with its arguments and what it returned. -/
inductive Call
  | nv_read_public (nv_index : Nat) (rc : tool_rc) (attributes : Nat)
  | object_load_auth (ctx_path auth_str : Option String) (rc : tool_rc)
  | session_restore (path : Option String) (rc : tool_rc)
      (session : Option tpm2_session)
  | aux_sessions_setup (session_cnt : Nat) (session_path : Arr2 (Option String))
      (rc : tool_rc)
  | calculate_phash_algorithm (cphash_path rphash_path : Option String)
      (sessions : List (Option tpm2_session)) (alg : Nat)
  | nvundefinespecial (nv_index : Nat) (policy_session : Option tpm2_session)
      (alg : Nat) (shandle : Nat) (rc : tool_rc)
  | nvundefine (nv_index : Nat) (alg : Nat) (shandle2 shandle3 : Nat)
      (rc : tool_rc)
  | save_digest (digest : TPM2B_DIGEST) (path : String) (ok : Bool)
  | session_close (slot : SessionSlot) (session : Option tpm2_session)
      (rc : tool_rc)
  deriving DecidableEq, Repr

/-- What `tpm2_util_calculate_phash_algorithm` hands back: the algorithm it
returns, the two digests it may fill, and the two path fields, whose
addresses it receives when they are set. -/
structure PhashResult where
  alg : Nat
  cp_hash : TPM2B_DIGEST
  rp_hash : TPM2B_DIGEST
  cp_hash_path : Option String
  rp_hash_path : Option String

/-- What an undefine library call hands back: its status and the two digests
it may fill. -/
structure UndefineResult where
  rc : tool_rc
  cp_hash : TPM2B_DIGEST
  rp_hash : TPM2B_DIGEST

/-- The library functions and header constants the tool uses; their bodies
and values are not in this source file, so they are parameters. Each function
takes the call history first. -/
structure Lib where
  TPMA_NV_POLICY_DELETE : Nat
  TPMA_NV_PLATFORMCREATE : Nat
  TPM2_SE_POLICY : Nat
  TPM2_ALG_ERROR : Nat
  ESYS_TR_NONE : Nat
  tpm2_util_nv_read_public : List Call → Nat → tool_rc × Nat
  tpm2_util_object_load_auth : List Call → Option String → Option String →
    tpm2_loaded_object → tool_rc × tpm2_loaded_object
  tpm2_session_restore : List Call → Option String → Option tpm2_session →
    tool_rc × Option tpm2_session
  tpm2_session_get_type : Option tpm2_session → Nat
  tpm2_util_aux_sessions_setup : List Call → Nat → Arr2 (Option String) →
    Arr2 Nat → Arr2 (Option tpm2_session) →
    tool_rc × Arr2 Nat × Arr2 (Option tpm2_session)
  tpm2_util_calculate_phash_algorithm : List Call → Option String →
    TPM2B_DIGEST → Option String → TPM2B_DIGEST →
    List (Option tpm2_session) → PhashResult
  tpm2_nvundefinespecial : List Call → tpm2_loaded_object → Nat →
    Option tpm2_session → TPM2B_DIGEST → TPM2B_DIGEST → Nat → Nat →
    UndefineResult
  tpm2_nvundefine : List Call → tpm2_loaded_object → Nat → TPM2B_DIGEST →
    TPM2B_DIGEST → Nat → Nat → Nat → UndefineResult
  files_save_digest : List Call → TPM2B_DIGEST → String → Bool
  on_arg_nv_index : List String → Nat → Bool × Nat
  tpm2_session_close : List Call → Option tpm2_session →
    tool_rc × Option tpm2_session

/-- The outcome of a tool function: its return code, the context it leaves
and the call history extended by the calls it made. -/
structure Run where
  rc : tool_rc
  ctx : tpm_nvundefine_ctx
  trace : List Call

/-- The static initializer of the context: hierarchy path "owner", hash
algorithm `TPM2_ALG_ERROR`, both auxiliary handles `ESYS_TR_NONE`, everything
else zero. -/
def ctx (lib : Lib) : tpm_nvundefine_ctx :=
  { auth_hierarchy :=
      { ctx_path := some "owner", auth_str := none,
        object := { handle := 0, tr_handle := 0, session := none } },
    policy_session := { path := none, session := none },
    is_auth_hierarchy_specified := false,
    nv_index := 0,
    has_policy_delete_set := false,
    cp_hash_path := none,
    cp_hash := { size := 0, buffer := [] },
    rp_hash_path := none,
    rp_hash := { size := 0, buffer := [] },
    is_command_dispatch := false,
    parameter_hash_algorithm := lib.TPM2_ALG_ERROR,
    aux_session_cnt := 0,
    aux_session := { e0 := none, e1 := none },
    aux_session_path := { e0 := none, e1 := none },
    aux_session_handle := { e0 := lib.ESYS_TR_NONE, e1 := lib.ESYS_TR_NONE } }

/-! ## The tool functions -/

/-- `nv_undefine`: one library call, the special one when the policy-delete
flag of the context is set, the standard one otherwise. -/
def nv_undefine (lib : Lib) (c : tpm_nvundefine_ctx) (hist : List Call) : Run :=
  if c.has_policy_delete_set then
    let out := lib.tpm2_nvundefinespecial hist c.auth_hierarchy.object
      c.nv_index c.policy_session.session c.cp_hash c.rp_hash
      c.parameter_hash_algorithm (c.aux_session_handle.get 0 0)
    { rc := out.rc,
      ctx := { c with cp_hash := out.cp_hash, rp_hash := out.rp_hash },
      trace := hist ++ [Call.nvundefinespecial c.nv_index
        c.policy_session.session c.parameter_hash_algorithm
        (c.aux_session_handle.get 0 0) out.rc] }
  else
    let out := lib.tpm2_nvundefine hist c.auth_hierarchy.object c.nv_index
      c.cp_hash c.rp_hash c.parameter_hash_algorithm
      (c.aux_session_handle.get 0 0) (c.aux_session_handle.get 1 0)
    { rc := out.rc,
      ctx := { c with cp_hash := out.cp_hash, rp_hash := out.rp_hash },
      trace := hist ++ [Call.nvundefine c.nv_index c.parameter_hash_algorithm
        (c.aux_session_handle.get 0 0) (c.aux_session_handle.get 1 0) out.rc] }

/-- `process_output`: write the request digest when its path is set and
fail when that write fails; stop with success when the command is not
dispatched; otherwise write the response digest when its path is set. -/
def process_output (lib : Lib) (c : tpm_nvundefine_ctx) (hist : List Call) :
    Run :=
  let w : Bool × List Call :=
    match c.cp_hash_path with
    | some p =>
      (lib.files_save_digest hist c.cp_hash p,
        hist ++ [Call.save_digest c.cp_hash p
          (lib.files_save_digest hist c.cp_hash p)])
    | none => (true, hist)
  if !w.1 then { rc := tool_rc_general_error, ctx := c, trace := w.2 }
  else if !c.is_command_dispatch then
    { rc := tool_rc_success, ctx := c, trace := w.2 }
  else
    match c.rp_hash_path with
    | some q =>
      { rc := if lib.files_save_digest w.2 c.rp_hash q then tool_rc_success
          else tool_rc_general_error,
        ctx := c,
        trace := w.2 ++ [Call.save_digest c.rp_hash q
          (lib.files_save_digest w.2 c.rp_hash q)] }
    | none => { rc := tool_rc_success, ctx := c, trace := w.2 }

/-- The part of `process_inputs` from step 2 on: set up the auxiliary
sessions, build the three-slot session list, compute the parameter-hash
algorithm and decide whether the command is dispatched. The hash helper gets
the address of a path field only when that path is set, so an unset path
stays unset and a set one becomes what the helper leaves there. -/
def process_inputs_sessions (lib : Lib) (c : tpm_nvundefine_ctx)
    (hist : List Call) : Run :=
  let s := lib.tpm2_util_aux_sessions_setup hist c.aux_session_cnt
    c.aux_session_path c.aux_session_handle c.aux_session
  let c1 := { c with aux_session_handle := s.2.1, aux_session := s.2.2 }
  let hist1 := hist ++
    [Call.aux_sessions_setup c.aux_session_cnt c.aux_session_path s.1]
  if s.1 ≠ tool_rc_success then { rc := s.1, ctx := c1, trace := hist1 }
  else
    let is_undefinespecial_session :=
      if c1.has_policy_delete_set then c1.policy_session.session
      else c1.aux_session.get 0 none
    let last_aux_session :=
      if c1.has_policy_delete_set then c1.aux_session.get 0 none
      else c1.aux_session.get 1 none
    let all_sessions := [c1.auth_hierarchy.object.session,
      is_undefinespecial_session, last_aux_session]
    let ph := lib.tpm2_util_calculate_phash_algorithm hist1 c1.cp_hash_path
      c1.cp_hash c1.rp_hash_path c1.rp_hash all_sessions
    let c2 := { c1 with
      cp_hash_path := if c1.cp_hash_path.isSome then ph.cp_hash_path else none,
      rp_hash_path := if c1.rp_hash_path.isSome then ph.rp_hash_path else none,
      cp_hash := ph.cp_hash,
      rp_hash := ph.rp_hash,
      parameter_hash_algorithm := ph.alg }
    let hist2 := hist1 ++ [Call.calculate_phash_algorithm c1.cp_hash_path
      c1.rp_hash_path all_sessions ph.alg]
    { rc := s.1,
      ctx := { c2 with is_command_dispatch :=
        if c2.cp_hash_path.isSome && !c2.rp_hash_path.isSome then false
        else true },
      trace := hist2 }

/-- `process_inputs`: load the hierarchy object; when the policy-delete flag
is set, restore the policy session, require it to be of policy type and shift
the auxiliary slots; then continue with `process_inputs_sessions`. -/
def process_inputs (lib : Lib) (c : tpm_nvundefine_ctx) (hist : List Call) :
    Run :=
  let l := lib.tpm2_util_object_load_auth hist c.auth_hierarchy.ctx_path
    c.auth_hierarchy.auth_str c.auth_hierarchy.object
  let c1 := { c with auth_hierarchy := { c.auth_hierarchy with object := l.2 } }
  let hist1 := hist ++ [Call.object_load_auth c.auth_hierarchy.ctx_path
    c.auth_hierarchy.auth_str l.1]
  if l.1 ≠ tool_rc_success then { rc := l.1, ctx := c1, trace := hist1 }
  else if c1.has_policy_delete_set then
    let r := lib.tpm2_session_restore hist1 c1.policy_session.path
      c1.policy_session.session
    let c2 := { c1 with policy_session :=
      { c1.policy_session with session := r.2 } }
    let hist2 := hist1 ++ [Call.session_restore c1.policy_session.path r.1 r.2]
    if r.1 ≠ tool_rc_success then { rc := r.1, ctx := c2, trace := hist2 }
    else
      let type := lib.tpm2_session_get_type c2.policy_session.session
      if c2.has_policy_delete_set && type != lib.TPM2_SE_POLICY then
        { rc := tool_rc_option_error, ctx := c2, trace := hist2 }
      else
        let c3 := { c2 with aux_session_cnt := (c2.aux_session_cnt + 255) % 256 }
        let c4 := { c3 with aux_session_path :=
          c3.aux_session_path.set 0 (c3.aux_session_path.get 1 none) }
        let c5 := { c4 with aux_session_path := c4.aux_session_path.set 1 none }
        process_inputs_sessions lib c5 hist2
  else process_inputs_sessions lib c1 hist1

/-- `check_options`: read the public area of the index, derive the
policy-delete flag and the default hierarchy from its attributes, and require
a policy session path when the flag is set. -/
def check_options (lib : Lib) (c : tpm_nvundefine_ctx) (hist : List Call) :
    Run :=
  let r := lib.tpm2_util_nv_read_public hist c.nv_index
  let hist1 := hist ++ [Call.nv_read_public c.nv_index r.1 r.2]
  if r.1 ≠ tool_rc_success then { rc := r.1, ctx := c, trace := hist1 }
  else
    let c1 := { c with has_policy_delete_set :=
      (r.2 &&& lib.TPMA_NV_POLICY_DELETE) != 0 }
    let is_platform_hierarchy_required := c1.has_policy_delete_set ||
      (r.2 &&& lib.TPMA_NV_PLATFORMCREATE) != 0
    let c2 :=
      if !c1.is_auth_hierarchy_specified && is_platform_hierarchy_required then
        { c1 with auth_hierarchy :=
          { c1.auth_hierarchy with ctx_path := some "platform" } }
      else c1
    if c2.has_policy_delete_set && !c2.policy_session.path.isSome then
      { rc := tool_rc_option_error, ctx := c2, trace := hist1 }
    else { rc := tool_rc_success, ctx := c2, trace := hist1 }

/-- `on_option`: the option callback. The keys are the characters 'C', 'P',
'S' and the codes 0 (cphash) and 1 (rphash); the count is an 8-bit unsigned
integer. -/
def on_option (key : Char) (value : String) (c : tpm_nvundefine_ctx) :
    Bool × tpm_nvundefine_ctx :=
  if key = 'C' then
    (true, { c with
      is_auth_hierarchy_specified := true,
      auth_hierarchy := { c.auth_hierarchy with ctx_path := some value } })
  else if key = 'P' then
    (true, { c with
      auth_hierarchy := { c.auth_hierarchy with auth_str := some value } })
  else if key = 'S' then
    let c1 :=
      if c.aux_session_cnt = 0 then
        { c with policy_session := { c.policy_session with path := some value } }
      else c
    let c2 := { c1 with aux_session_path :=
      c1.aux_session_path.set c1.aux_session_cnt (some value) }
    if c2.aux_session_cnt < MAX_AUX_SESSIONS then
      (true, { c2 with aux_session_cnt := (c2.aux_session_cnt + 1) % 256 })
    else (false, c2)
  else if key = Char.ofNat 0 then (true, { c with cp_hash_path := some value })
  else if key = Char.ofNat 1 then (true, { c with rp_hash_path := some value })
  else (true, c)

/-- `on_arg`: the positional arguments give the NV index. -/
def on_arg (lib : Lib) (argv : List String) (c : tpm_nvundefine_ctx) :
    Bool × tpm_nvundefine_ctx :=
  let r := lib.on_arg_nv_index argv c.nv_index
  (r.1, { c with nv_index := r.2 })

/-- `tpm2_tool_onrun`: check the options, process the inputs, call
`nv_undefine`, process the outputs; the first failing step ends the run. -/
def tpm2_tool_onrun (lib : Lib) (c : tpm_nvundefine_ctx) (hist : List Call) :
    Run :=
  let r1 := check_options lib c hist
  if r1.rc ≠ tool_rc_success then r1
  else
    let r2 := process_inputs lib r1.ctx r1.trace
    if r2.rc ≠ tool_rc_success then r2
    else
      let r3 := nv_undefine lib r2.ctx r2.trace
      if r3.rc ≠ tool_rc_success then r3
      else process_output lib r3.ctx r3.trace

/-- One close in `tpm2_tool_onstop`: call `tpm2_session_close` on a slot and
keep its return code when it is not success. -/
def close_slot (lib : Lib) (slot : SessionSlot) (s : Option tpm2_session)
    (rc : tool_rc) (hist : List Call) :
    tool_rc × Option tpm2_session × List Call :=
  let t := lib.tpm2_session_close hist s
  (if t.1 ≠ tool_rc_success then t.1 else rc, t.2,
    hist ++ [Call.session_close slot s t.1])

/-- One iteration of the loop over the auxiliary slots in `tpm2_tool_onstop`. -/
def onstop_aux_step (lib : Lib) (r : Run) (i : Nat) : Run :=
  if (r.ctx.aux_session_path.get i none).isSome then
    let t := close_slot lib (SessionSlot.aux i) (r.ctx.aux_session.get i none)
      r.rc r.trace
    { rc := t.1,
      ctx := { r.ctx with aux_session := r.ctx.aux_session.set i t.2.1 },
      trace := t.2.2 }
  else r

/-- `tpm2_tool_onstop`: close the policy session, the hierarchy session and
then, for each index below the auxiliary count, the auxiliary session whose
path is set. -/
def tpm2_tool_onstop (lib : Lib) (c : tpm_nvundefine_ctx) (hist : List Call) :
    Run :=
  let t1 := close_slot lib SessionSlot.policy_session c.policy_session.session
    tool_rc_success hist
  let c1 := { c with policy_session := { c.policy_session with session := t1.2.1 } }
  let t2 := close_slot lib SessionSlot.auth_hierarchy
    c1.auth_hierarchy.object.session t1.1 t1.2.2
  let c2 := { c1 with auth_hierarchy := { c1.auth_hierarchy with
    object := { c1.auth_hierarchy.object with session := t2.2.1 } } }
  (List.range c2.aux_session_cnt).foldl (onstop_aux_step lib)
    { rc := t2.1, ctx := c2, trace := t2.2.2 }

/-! ## Scenario helpers -/

/-- The successive `on_option` calls made for a list of options, in order;
the first rejected call ends the sequence and the result is then `false`. -/
def run_options : List (Char × String) → tpm_nvundefine_ctx →
    Bool × tpm_nvundefine_ctx
  | [], c => (true, c)
  | (k, v) :: rest, c =>
    if (on_option k v c).1 then run_options rest (on_option k v c).2
    else (false, (on_option k v c).2)

/-- Whether a call is one of the two undefine library calls. -/
def is_undefine_call : Call → Bool
  | Call.nvundefinespecial _ _ _ _ _ => true
  | Call.nvundefine _ _ _ _ _ => true
  | _ => false

/-- The undefine library calls of a history, in order. -/
def undefine_calls (tr : List Call) : List Call := tr.filter is_undefine_call

/-- Whether a call is the parameter-hash computation. -/
def is_phash_call : Call → Bool
  | Call.calculate_phash_algorithm _ _ _ _ => true
  | _ => false

/-- The parameter-hash computations of a history, in order. -/
def phash_calls (tr : List Call) : List Call := tr.filter is_phash_call

/-- The return codes of the session closes of a history, in order. -/
def close_outcomes (tr : List Call) : List tool_rc :=
  tr.filterMap (fun e =>
    match e with
    | Call.session_close _ _ rc => some rc
    | _ => none)

/-- The slots closed in a history, in order. -/
def closed_slots (tr : List Call) : List SessionSlot :=
  tr.filterMap (fun e =>
    match e with
    | Call.session_close slot _ _ => some slot
    | _ => none)

/-- The first return code of a list that is not success, and success when
there is none. -/
def first_failure (outs : List tool_rc) : tool_rc :=
  (outs.find? (fun r => r ≠ tool_rc_success)).getD tool_rc_success

/-- The last return code of a list that is not success, and success when
there is none. -/
def last_failure (outs : List tool_rc) : tool_rc :=
  (outs.reverse.find? (fun r => r ≠ tool_rc_success)).getD tool_rc_success

/-- Every auxiliary slot that holds a path lies below the auxiliary count. -/
def slots_below_count (c : tpm_nvundefine_ctx) : Prop :=
  (c.aux_session_path.e0.isSome = true → 0 < c.aux_session_cnt) ∧
  (c.aux_session_path.e1.isSome = true → 1 < c.aux_session_cnt)

instance (c : tpm_nvundefine_ctx) : Decidable (slots_below_count c) := by
  unfold slots_below_count
  exact inferInstance

/-- The hierarchy given on the command line: the value of the last 'C'
option, if there is one. -/
def hierarchy_override (opts : List (Char × String)) : Option String :=
  opts.foldl (fun acc kv => if kv.1 = 'C' then some kv.2 else acc) none

/-- The session paths given on the command line: the values of the 'S'
options, in order. -/
def session_paths (opts : List (Char × String)) : List String :=
  (opts.filter (fun kv => kv.1 = 'S')).map (fun kv => kv.2)

/-- A library in which every call succeeds: the index has attributes `attrs`,
every restored session has type `ty`, and the constants have the values of
the TPM 2.0 headers. -/
def sampleLib (attrs ty : Nat) : Lib :=
  { TPMA_NV_POLICY_DELETE := 0x400,
    TPMA_NV_PLATFORMCREATE := 0x40000000,
    TPM2_SE_POLICY := 1,
    TPM2_ALG_ERROR := 0,
    ESYS_TR_NONE := 0xfff,
    tpm2_util_nv_read_public := fun _ _ => (tool_rc_success, attrs),
    tpm2_util_object_load_auth := fun _ _ _ o =>
      (tool_rc_success, { o with session := some 7 }),
    tpm2_session_restore := fun _ _ _ => (tool_rc_success, some 11),
    tpm2_session_get_type := fun _ => ty,
    tpm2_util_aux_sessions_setup := fun _ _ paths handles _ =>
      (tool_rc_success, handles,
        { e0 := paths.e0.map (fun _ => 21), e1 := paths.e1.map (fun _ => 22) }),
    tpm2_util_calculate_phash_algorithm := fun _ cp cph rp rph _ =>
      { alg := 11, cp_hash := cph, rp_hash := rph, cp_hash_path := cp,
        rp_hash_path := rp },
    tpm2_nvundefinespecial := fun _ _ _ _ cph rph _ _ =>
      { rc := tool_rc_success, cp_hash := cph, rp_hash := rph },
    tpm2_nvundefine := fun _ _ _ cph rph _ _ _ =>
      { rc := tool_rc_success, cp_hash := cph, rp_hash := rph },
    files_save_digest := fun _ _ _ => true,
    on_arg_nv_index := fun _ _ => (true, 0x1000001),
    tpm2_session_close := fun _ _ => (tool_rc_success, none) }

/-- The library `sampleLib 0 1`, except that every session close fails: the
first close of a history with `tool_rc_general_error`, every later one with
`tool_rc_option_error`. -/
def closeFailLib : Lib :=
  { sampleLib 0 1 with
    tpm2_session_close := fun hist _ =>
      if close_outcomes hist = [] then (tool_rc_general_error, none)
      else (tool_rc_option_error, none) }

/-- The index at which `on_option` stores the value in `aux_session_path`:
the session option stores at the current count, before it compares the count
with `MAX_AUX_SESSIONS`; the other options do not store there. -/
def aux_session_path_store_index (key : Char) (c : tpm_nvundefine_ctx) :
    Option Nat :=
  if key = 'S' then some c.aux_session_cnt else none

/-- The indices of the stores to `aux_session_path` made by the successive
`on_option` calls for a list of options, the rejected call included. -/
def run_options_store_indices : List (Char × String) → tpm_nvundefine_ctx →
    List Nat
  | [], _ => []
  | (k, v) :: rest, c =>
    (aux_session_path_store_index k c).toList ++
      (if (on_option k v c).1 then
        run_options_store_indices rest (on_option k v c).2
      else [])

/-- Whether a call is a digest write. -/
def is_digest_write : Call → Bool
  | Call.save_digest _ _ _ => true
  | _ => false

/-- The digest writes of a history, in order. -/
def digest_writes (tr : List Call) : List Call := tr.filter is_digest_write

/-- The number of sessions a call opens at most: one for the hierarchy
object, one for the policy session, and the count handed to the auxiliary
session setup. -/
def session_count : Call → Nat
  | Call.object_load_auth _ _ _ => 1
  | Call.session_restore _ _ _ => 1
  | Call.aux_sessions_setup n _ _ => n
  | _ => 0

/-- The number of sessions the calls of a history open at most. -/
def sessions_opened (tr : List Call) : Nat := (tr.map session_count).sum

/-- The counts handed to the auxiliary session setup in a history. -/
def aux_setup_counts (tr : List Call) : List Nat :=
  tr.filterMap (fun e =>
    match e with
    | Call.aux_sessions_setup n _ _ => some n
    | _ => none)

/-- The stage of a run a call belongs to: 0 the attribute probe, 1 the
session-role assignment (hierarchy load, policy-session restore, auxiliary
setup), 2 the parameter-hash computation, 3 the undefine call, 4 the digest
writes, 5 the teardown. -/
def stage : Call → Nat
  | Call.nv_read_public _ _ _ => 0
  | Call.object_load_auth _ _ _ => 1
  | Call.session_restore _ _ _ => 1
  | Call.aux_sessions_setup _ _ _ => 1
  | Call.calculate_phash_algorithm _ _ _ _ => 2
  | Call.nvundefinespecial _ _ _ _ _ => 3
  | Call.nvundefine _ _ _ _ _ => 3
  | Call.save_digest _ _ _ => 4
  | Call.session_close _ _ _ => 5

/-- Whether a call reported a failure. The parameter-hash computation returns
an algorithm, not a status. -/
def call_failed : Call → Bool
  | Call.nv_read_public _ rc _ => rc != tool_rc_success
  | Call.object_load_auth _ _ rc => rc != tool_rc_success
  | Call.session_restore _ rc _ => rc != tool_rc_success
  | Call.aux_sessions_setup _ _ rc => rc != tool_rc_success
  | Call.calculate_phash_algorithm _ _ _ _ => false
  | Call.nvundefinespecial _ _ _ _ rc => rc != tool_rc_success
  | Call.nvundefine _ _ _ _ rc => rc != tool_rc_success
  | Call.save_digest _ _ ok => !ok
  | Call.session_close _ _ rc => rc != tool_rc_success

/-- A list of calls whose stages never decrease and lie between `lo` and
`hi`, and in which no call but the last reported a failure. -/
def stage_ordered (lo hi : Nat) (ext : List Call) : Prop :=
  (ext.map stage).Pairwise (fun a b => a ≤ b) ∧
  (∀ e ∈ ext, lo ≤ stage e ∧ stage e ≤ hi) ∧
  (∀ e ∈ ext.dropLast, call_failed e = false)

/-- The library `sampleLib attrs ty`, except that every digest write fails. -/
def writeFailLib (attrs ty : Nat) : Lib :=
  { sampleLib attrs ty with files_save_digest := fun _ _ _ => false }

/-- The context of the sample scenarios: the initial context after the
options `opts` and the index argument. -/
def sample_ctx (opts : List (Char × String)) : tpm_nvundefine_ctx :=
  (on_arg (sampleLib 0 1) ["0x1000001"]
    (run_options opts (ctx (sampleLib 0 1))).2).2

/-! ## Properties of `process_inputs` -/

theorem process_inputs_sessions_flag (lib : Lib) (c : tpm_nvundefine_ctx)
    (hist : List Call)
    (h : (process_inputs_sessions lib c hist).rc = tool_rc_success) :
    ((process_inputs_sessions lib c hist).ctx.is_command_dispatch = false ↔
      (process_inputs_sessions lib c hist).ctx.cp_hash_path.isSome = true ∧
      (process_inputs_sessions lib c hist).ctx.rp_hash_path.isSome = false) ∧
    (c.cp_hash_path = none →
      (process_inputs_sessions lib c hist).ctx.cp_hash_path = none) ∧
    (c.rp_hash_path = none →
      (process_inputs_sessions lib c hist).ctx.rp_hash_path = none) := by
  unfold process_inputs_sessions at h ⊢
  by_cases hs : (lib.tpm2_util_aux_sessions_setup hist c.aux_session_cnt
      c.aux_session_path c.aux_session_handle c.aux_session).1 = tool_rc_success
  · simp only [hs, ne_eq, not_true_eq_false, if_false]
    refine ⟨?_, ?_, ?_⟩
    · simp
    · intro h0; simp [h0]
    · intro h0; simp [h0]
  · simp only [ne_eq, hs, not_false_eq_true, if_true] at h

theorem process_inputs_flag_cp (lib : Lib) (c : tpm_nvundefine_ctx)
    (hist : List Call)
    (h : (process_inputs lib c hist).rc = tool_rc_success)
    (hf : (process_inputs lib c hist).ctx.is_command_dispatch = false) :
    (process_inputs lib c hist).ctx.cp_hash_path.isSome = true := by
  unfold process_inputs at h hf ⊢
  simp only [] at h hf ⊢
  split_ifs at h hf ⊢ with h1 h2 h3 h4
  · exact absurd h h1
  · exact absurd h h3
  · exact ((process_inputs_sessions_flag lib _ _ h).1.1 hf).1
  · exact ((process_inputs_sessions_flag lib _ _ h).1.1 hf).1

/-- C1: whenever `process_inputs` runs to completion (returns success), the
dispatch flag it leaves is false exactly when the request-digest path is set
and the response-digest path is not, read on the path fields as they stand
when the flag is assigned; a path that was unset on entry is still unset
there, so with no request-digest path on entry the flag is true. -/
theorem process_inputs_dispatch_flag (lib : Lib) (c : tpm_nvundefine_ctx)
    (hist : List Call)
    (h : (process_inputs lib c hist).rc = tool_rc_success) :
    ((process_inputs lib c hist).ctx.is_command_dispatch = false ↔
      (process_inputs lib c hist).ctx.cp_hash_path.isSome = true ∧
      (process_inputs lib c hist).ctx.rp_hash_path.isSome = false) ∧
    (c.cp_hash_path = none →
      (process_inputs lib c hist).ctx.cp_hash_path = none ∧
      (process_inputs lib c hist).ctx.is_command_dispatch = true) ∧
    (c.rp_hash_path = none →
      (process_inputs lib c hist).ctx.rp_hash_path = none) := by
  unfold process_inputs at h ⊢
  simp only [] at h ⊢
  split_ifs at h ⊢ with h1 h2 h3 h4
  · exact absurd h h1
  · exact absurd h h3
  · have := process_inputs_sessions_flag lib _ _ h
    obtain ⟨ha, hb, hc⟩ := this
    refine ⟨ha, ?_, hc⟩
    intro h0
    have hb0 := hb h0
    refine ⟨hb0, ?_⟩
    by_contra hf
    have hf2 := (ha.1 (by simpa using hf)).1
    rw [hb0] at hf2
    simp at hf2
  · have := process_inputs_sessions_flag lib _ _ h
    obtain ⟨ha, hb, hc⟩ := this
    refine ⟨ha, ?_, hc⟩
    intro h0
    have hb0 := hb h0
    refine ⟨hb0, ?_⟩
    by_contra hf
    have hf2 := (ha.1 (by simpa using hf)).1
    rw [hb0] at hf2
    simp at hf2

theorem process_inputs_dispatch_flag_witness :
    (process_inputs (sampleLib 0 1) (sample_ctx [(Char.ofNat 0, "cp.bin")])
      []).rc = tool_rc_success ∧
    (process_inputs (sampleLib 0 1) (sample_ctx [(Char.ofNat 0, "cp.bin")])
      []).ctx.is_command_dispatch = false :=
  ⟨by decide,
    (process_inputs_dispatch_flag (sampleLib 0 1)
      (sample_ctx [(Char.ofNat 0, "cp.bin")]) [] (by decide)).1.2
      ⟨by decide, by decide⟩⟩

/-! ## Call histories of the stages -/

theorem check_options_trace (lib : Lib) (c : tpm_nvundefine_ctx)
    (hist : List Call) :
    (check_options lib c hist).trace = hist ++ [Call.nv_read_public c.nv_index
      (lib.tpm2_util_nv_read_public hist c.nv_index).1
      (lib.tpm2_util_nv_read_public hist c.nv_index).2] := by
  unfold check_options
  simp only []
  split_ifs <;> rfl

theorem process_inputs_sessions_undefine_calls (lib : Lib)
    (c : tpm_nvundefine_ctx) (hist : List Call) :
    undefine_calls (process_inputs_sessions lib c hist).trace =
      undefine_calls hist := by
  unfold process_inputs_sessions
  simp only []
  split_ifs <;> simp [undefine_calls, List.filter_append, is_undefine_call]

theorem process_inputs_undefine_calls (lib : Lib) (c : tpm_nvundefine_ctx)
    (hist : List Call) :
    undefine_calls (process_inputs lib c hist).trace = undefine_calls hist := by
  unfold process_inputs
  simp only []
  split_ifs <;> simp only [process_inputs_sessions_undefine_calls] <;>
    simp [undefine_calls, List.filter_append, is_undefine_call]

theorem check_options_undefine_calls (lib : Lib) (c : tpm_nvundefine_ctx)
    (hist : List Call) :
    undefine_calls (check_options lib c hist).trace = undefine_calls hist := by
  rw [check_options_trace]
  simp [undefine_calls, List.filter_append, is_undefine_call]

theorem process_output_undefine_calls (lib : Lib) (c : tpm_nvundefine_ctx)
    (hist : List Call) :
    undefine_calls (process_output lib c hist).trace = undefine_calls hist := by
  unfold process_output
  cases hcp : c.cp_hash_path <;> cases hrp : c.rp_hash_path <;>
    simp only [] <;> split_ifs <;>
    simp [undefine_calls, List.filter_append, is_undefine_call]

theorem nv_undefine_trace (lib : Lib) (c : tpm_nvundefine_ctx)
    (hist : List Call) :
    (nv_undefine lib c hist).trace = hist ++
      [if c.has_policy_delete_set then
        Call.nvundefinespecial c.nv_index c.policy_session.session
          c.parameter_hash_algorithm (c.aux_session_handle.get 0 0)
          (nv_undefine lib c hist).rc
      else
        Call.nvundefine c.nv_index c.parameter_hash_algorithm
          (c.aux_session_handle.get 0 0) (c.aux_session_handle.get 1 0)
          (nv_undefine lib c hist).rc] := by
  unfold nv_undefine
  split_ifs <;> rfl

theorem nv_undefine_ctx (lib : Lib) (c : tpm_nvundefine_ctx)
    (hist : List Call) :
    (nv_undefine lib c hist).ctx.cp_hash_path = c.cp_hash_path ∧
    (nv_undefine lib c hist).ctx.rp_hash_path = c.rp_hash_path ∧
    (nv_undefine lib c hist).ctx.is_command_dispatch = c.is_command_dispatch ∧
    (nv_undefine lib c hist).ctx.has_policy_delete_set =
      c.has_policy_delete_set := by
  unfold nv_undefine
  split_ifs <;> exact ⟨rfl, rfl, rfl, rfl⟩

theorem onrun_stages (lib : Lib) (c : tpm_nvundefine_ctx) (hist : List Call)
    (r1 r2 r3 : Run)
    (hco : check_options lib c hist = r1) (h1 : r1.rc = tool_rc_success)
    (hpi : process_inputs lib r1.ctx r1.trace = r2)
    (h2 : r2.rc = tool_rc_success)
    (hnv : nv_undefine lib r2.ctx r2.trace = r3) :
    tpm2_tool_onrun lib c hist =
      if r3.rc ≠ tool_rc_success then r3
      else process_output lib r3.ctx r3.trace := by
  subst hco
  subst hpi
  subst hnv
  unfold tpm2_tool_onrun
  simp only [h1, h2, ne_eq, not_true_eq_false, if_false]

theorem undefine_calls_snoc (l : List Call) (x : Call)
    (hx : is_undefine_call x = true) :
    undefine_calls (l ++ [x]) = undefine_calls l ++ [x] := by
  simp [undefine_calls, List.filter_append, hx]

theorem nv_undefine_call (lib : Lib) (c : tpm_nvundefine_ctx)
    (hist : List Call) :
    ∃ call, is_undefine_call call = true ∧
      (nv_undefine lib c hist).trace = hist ++ [call] := by
  refine ⟨_, ?_, nv_undefine_trace lib c hist⟩
  split_ifs <;> rfl

/-- C2, as stated, fails: with a request-digest path and no response-digest
path the dispatch flag is false, and the run still makes the standard
undefine library call. -/
theorem onrun_skip_undefine_counterexample :
    (process_inputs (sampleLib 0 1)
      (check_options (sampleLib 0 1) (sample_ctx [(Char.ofNat 0, "cp.bin")])
        []).ctx
      (check_options (sampleLib 0 1) (sample_ctx [(Char.ofNat 0, "cp.bin")])
        []).trace).ctx.is_command_dispatch = false ∧
    undefine_calls (tpm2_tool_onrun (sampleLib 0 1)
      (sample_ctx [(Char.ofNat 0, "cp.bin")]) []).trace =
      [Call.nvundefine 0x1000001 11 0xfff 0xfff tool_rc_success] := by
  decide

/-- C2, amended: in every run whose dispatch flag is false, `nv_undefine` is
invoked exactly once, after `process_inputs`, and makes the one undefine
library call of the run; when that call fails its code is the result of the
run; when it succeeds the run writes the request digest, and only it, and
returns success exactly when that write succeeds. -/
theorem onrun_without_dispatch (lib : Lib) (c : tpm_nvundefine_ctx)
    (hist : List Call) (r1 r2 r3 : Run)
    (hco : check_options lib c hist = r1) (h1 : r1.rc = tool_rc_success)
    (hpi : process_inputs lib r1.ctx r1.trace = r2)
    (h2 : r2.rc = tool_rc_success)
    (hflag : r2.ctx.is_command_dispatch = false)
    (hnv : nv_undefine lib r2.ctx r2.trace = r3) :
    (∃ call, is_undefine_call call = true ∧ r3.trace = r2.trace ++ [call] ∧
      undefine_calls (tpm2_tool_onrun lib c hist).trace =
        undefine_calls hist ++ [call]) ∧
    (r3.rc ≠ tool_rc_success → tpm2_tool_onrun lib c hist = r3) ∧
    (r3.rc = tool_rc_success → ∃ p, r3.ctx.cp_hash_path = some p ∧
      (tpm2_tool_onrun lib c hist).trace = r3.trace ++
        [Call.save_digest r3.ctx.cp_hash p
          (lib.files_save_digest r3.trace r3.ctx.cp_hash p)] ∧
      (tpm2_tool_onrun lib c hist).rc =
        if lib.files_save_digest r3.trace r3.ctx.cp_hash p then tool_rc_success
        else tool_rc_general_error) := by
  have hrun := onrun_stages lib c hist r1 r2 r3 hco h1 hpi h2 hnv
  have hcx := nv_undefine_ctx lib r2.ctx r2.trace
  rw [hnv] at hcx
  obtain ⟨call, hcall, htr⟩ := nv_undefine_call lib r2.ctx r2.trace
  rw [hnv] at htr
  have hu2 : undefine_calls r2.trace = undefine_calls hist := by
    rw [← hpi, process_inputs_undefine_calls, ← hco,
      check_options_undefine_calls]
  have hu3 : undefine_calls r3.trace = undefine_calls hist ++ [call] := by
    rw [htr, undefine_calls_snoc _ _ hcall, hu2]
  have hcp : r3.ctx.cp_hash_path.isSome = true := by
    rw [hcx.1, ← hpi]
    rw [← hpi] at h2 hflag
    exact process_inputs_flag_cp lib _ _ h2 hflag
  have hfl : r3.ctx.is_command_dispatch = false := by
    rw [hcx.2.2.1, hflag]
  refine ⟨⟨call, hcall, htr, ?_⟩, ?_, ?_⟩
  · rw [hrun]
    split_ifs
    · exact hu3
    · rw [process_output_undefine_calls, hu3]
  · intro hne
    rw [hrun, if_pos hne]
  · intro heq
    obtain ⟨p, hp⟩ := Option.isSome_iff_exists.mp hcp
    refine ⟨p, hp, ?_⟩
    rw [hrun]
    simp only [heq, ne_eq, not_true_eq_false, if_false]
    unfold process_output
    simp only [hp, hfl]
    cases hw : lib.files_save_digest r3.trace r3.ctx.cp_hash p <;> simp

theorem onrun_without_dispatch_witness :
    ∃ call, is_undefine_call call = true ∧
      undefine_calls (tpm2_tool_onrun (sampleLib 0 1)
        (sample_ctx [(Char.ofNat 0, "cp.bin")]) []).trace =
        undefine_calls [] ++ [call] :=
  (onrun_without_dispatch (sampleLib 0 1)
    (sample_ctx [(Char.ofNat 0, "cp.bin")]) [] _ _ _ rfl (by decide) rfl
    (by decide) (by decide) rfl).1.imp (fun _ h => ⟨h.1, h.2.2⟩)

/-! ## Selection of the undefine call -/

theorem process_inputs_sessions_keeps (lib : Lib) (c : tpm_nvundefine_ctx)
    (hist : List Call) :
    (process_inputs_sessions lib c hist).ctx.has_policy_delete_set =
      c.has_policy_delete_set ∧
    (process_inputs_sessions lib c hist).ctx.nv_index = c.nv_index ∧
    (process_inputs_sessions lib c hist).ctx.policy_session =
      c.policy_session ∧
    (process_inputs_sessions lib c hist).ctx.aux_session_cnt =
      c.aux_session_cnt ∧
    (process_inputs_sessions lib c hist).ctx.aux_session_path =
      c.aux_session_path ∧
    (process_inputs_sessions lib c hist).ctx.auth_hierarchy =
      c.auth_hierarchy := by
  unfold process_inputs_sessions
  simp only []
  split_ifs <;> exact ⟨rfl, rfl, rfl, rfl, rfl, rfl⟩

theorem process_inputs_keeps (lib : Lib) (c : tpm_nvundefine_ctx)
    (hist : List Call) :
    (process_inputs lib c hist).ctx.has_policy_delete_set =
      c.has_policy_delete_set ∧
    (process_inputs lib c hist).ctx.nv_index = c.nv_index ∧
    (process_inputs lib c hist).ctx.policy_session.path =
      c.policy_session.path := by
  unfold process_inputs
  simp only []
  split_ifs <;>
    simp only [(process_inputs_sessions_keeps lib _ _).1,
      (process_inputs_sessions_keeps lib _ _).2.1,
      (process_inputs_sessions_keeps lib _ _).2.2.1, and_self]

theorem check_options_flag (lib : Lib) (c : tpm_nvundefine_ctx)
    (hist : List Call)
    (hrd : (lib.tpm2_util_nv_read_public hist c.nv_index).1 = tool_rc_success) :
    (check_options lib c hist).ctx.has_policy_delete_set =
      ((lib.tpm2_util_nv_read_public hist c.nv_index).2 &&&
        lib.TPMA_NV_POLICY_DELETE != 0) ∧
    (check_options lib c hist).ctx.nv_index = c.nv_index ∧
    (check_options lib c hist).ctx.policy_session = c.policy_session ∧
    (check_options lib c hist).ctx.aux_session_cnt = c.aux_session_cnt ∧
    (check_options lib c hist).ctx.aux_session_path = c.aux_session_path := by
  unfold check_options
  simp only [hrd, ne_eq, not_true_eq_false, if_false]
  split_ifs <;> exact ⟨rfl, rfl, rfl, rfl, rfl⟩

/-- C3: for the attributes returned by the NV public read, `check_options`
sets the policy-delete flag exactly when the TPMA_NV_POLICY_DELETE bit is set
in them, whatever the other bits and whether or not the hierarchy was given;
`process_inputs` keeps the flag; and `nv_undefine` then makes exactly one
library call, the special undefine when the bit is set and the standard
undefine otherwise. -/
theorem nv_undefine_selection (lib : Lib) (c : tpm_nvundefine_ctx)
    (hist : List Call) (r1 r2 : Run)
    (hrd : (lib.tpm2_util_nv_read_public hist c.nv_index).1 = tool_rc_success)
    (hco : check_options lib c hist = r1)
    (hpi : process_inputs lib r1.ctx r1.trace = r2) :
    r1.ctx.has_policy_delete_set =
      ((lib.tpm2_util_nv_read_public hist c.nv_index).2 &&&
        lib.TPMA_NV_POLICY_DELETE != 0) ∧
    r2.ctx.has_policy_delete_set = r1.ctx.has_policy_delete_set ∧
    (nv_undefine lib r2.ctx r2.trace).trace = r2.trace ++
      [if (lib.tpm2_util_nv_read_public hist c.nv_index).2 &&&
          lib.TPMA_NV_POLICY_DELETE ≠ 0 then
        Call.nvundefinespecial c.nv_index r2.ctx.policy_session.session
          r2.ctx.parameter_hash_algorithm (r2.ctx.aux_session_handle.get 0 0)
          (nv_undefine lib r2.ctx r2.trace).rc
      else
        Call.nvundefine c.nv_index r2.ctx.parameter_hash_algorithm
          (r2.ctx.aux_session_handle.get 0 0)
          (r2.ctx.aux_session_handle.get 1 0)
          (nv_undefine lib r2.ctx r2.trace).rc] := by
  have hf := check_options_flag lib c hist hrd
  rw [hco] at hf
  have hk := process_inputs_keeps lib r1.ctx r1.trace
  rw [hpi] at hk
  refine ⟨hf.1, hk.1, ?_⟩
  rw [nv_undefine_trace, hk.1, hk.2.1, hf.1, hf.2.1]
  by_cases hb : (lib.tpm2_util_nv_read_public hist c.nv_index).2 &&&
      lib.TPMA_NV_POLICY_DELETE = 0
  · simp [hb]
  · simp [hb]

theorem nv_undefine_selection_witness :
    (nv_undefine (sampleLib 0x400 1)
      (process_inputs (sampleLib 0x400 1)
        (check_options (sampleLib 0x400 1) (sample_ctx [('S', "s.ctx")])
          []).ctx
        (check_options (sampleLib 0x400 1) (sample_ctx [('S', "s.ctx")])
          []).trace).ctx
      (process_inputs (sampleLib 0x400 1)
        (check_options (sampleLib 0x400 1) (sample_ctx [('S', "s.ctx")])
          []).ctx
        (check_options (sampleLib 0x400 1) (sample_ctx [('S', "s.ctx")])
          []).trace).trace).trace.getLast? =
      some (Call.nvundefinespecial 0x1000001 (some 11) 11 0xfff
        tool_rc_success) := by
  rw [(nv_undefine_selection (sampleLib 0x400 1) (sample_ctx [('S', "s.ctx")])
    [] _ _ (by decide) rfl rfl).2.2]
  decide

/-! ## The hierarchy path -/

theorem on_option_hierarchy (k : Char) (v : String) (c : tpm_nvundefine_ctx) :
    (on_option k v c).2.is_auth_hierarchy_specified =
      (if k = 'C' then true else c.is_auth_hierarchy_specified) ∧
    (on_option k v c).2.auth_hierarchy.ctx_path =
      (if k = 'C' then some v else c.auth_hierarchy.ctx_path) := by
  unfold on_option
  simp only []
  split_ifs <;> simp_all

theorem run_options_hierarchy (opts : List (Char × String)) :
    ∀ (c c1 : tpm_nvundefine_ctx) (acc : Option String),
      run_options opts c = (true, c1) →
      c.is_auth_hierarchy_specified = acc.isSome →
      c.auth_hierarchy.ctx_path = some (acc.getD "owner") →
      c1.is_auth_hierarchy_specified =
        (opts.foldl (fun acc kv => if kv.1 = 'C' then some kv.2 else acc)
          acc).isSome ∧
      c1.auth_hierarchy.ctx_path =
        some ((opts.foldl (fun acc kv => if kv.1 = 'C' then some kv.2 else acc)
          acc).getD "owner") := by
  induction opts with
  | nil =>
    intro c c1 acc h hs hp
    simp only [run_options, Prod.mk.injEq, true_and] at h
    subst h
    exact ⟨hs, hp⟩
  | cons kv rest ih =>
    intro c c1 acc h hs hp
    obtain ⟨k, v⟩ := kv
    have ho := on_option_hierarchy k v c
    simp only [run_options] at h
    by_cases hacc : (on_option k v c).1 = true
    · rw [if_pos hacc] at h
      simp only [List.foldl_cons]
      apply ih _ _ _ h
      · rw [ho.1]
        by_cases hk : k = 'C'
        · simp [hk]
        · simp [hk, hs]
      · rw [ho.2]
        by_cases hk : k = 'C'
        · simp [hk]
        · simp [hk, hp]
    · rw [if_neg hacc] at h
      simp at h

/-- C4: after any accepted option sequence, once `check_options` has read
the attributes, the hierarchy path is the value of the last 'C' option when
one was given, whatever the attribute bits; otherwise it is "platform" when
the policy-delete bit or the platform-create bit is set, and the default
"owner" when neither is. -/
theorem check_options_hierarchy (lib : Lib) (opts : List (Char × String))
    (argv : List String) (hist : List Call) (c0 c : tpm_nvundefine_ctx)
    (r1 : Run)
    (hopts : run_options opts (ctx lib) = (true, c0))
    (harg : (on_arg lib argv c0).2 = c)
    (hrd : (lib.tpm2_util_nv_read_public hist c.nv_index).1 = tool_rc_success)
    (hco : check_options lib c hist = r1) :
    r1.ctx.auth_hierarchy.ctx_path =
      match hierarchy_override opts with
      | some v => some v
      | none =>
        if (lib.tpm2_util_nv_read_public hist c.nv_index).2 &&&
            lib.TPMA_NV_POLICY_DELETE ≠ 0 ∨
          (lib.tpm2_util_nv_read_public hist c.nv_index).2 &&&
            lib.TPMA_NV_PLATFORMCREATE ≠ 0
        then some "platform" else some "owner" := by
  have h := run_options_hierarchy opts (ctx lib) c0 none hopts rfl rfl
  have hs : c.is_auth_hierarchy_specified = (hierarchy_override opts).isSome := by
    rw [← harg]; exact h.1
  have hp : c.auth_hierarchy.ctx_path =
      some ((hierarchy_override opts).getD "owner") := by
    rw [← harg]; exact h.2
  subst hco
  unfold check_options
  simp only [hrd, ne_eq, not_true_eq_false, if_false]
  cases ho : hierarchy_override opts with
  | some v =>
    rw [ho] at hs hp
    simp only [Option.isSome_some] at hs
    simp only [Option.getD_some] at hp
    split_ifs <;> simp_all
  | none =>
    rw [ho] at hs hp
    simp only [Option.isSome_none] at hs
    simp only [Option.getD_none] at hp
    split_ifs <;> simp_all

theorem check_options_hierarchy_witness :
    (check_options (sampleLib 0x40000000 1) (sample_ctx [('P', "pw")])
      []).ctx.auth_hierarchy.ctx_path = some "platform" :=
  check_options_hierarchy (sampleLib 0x40000000 1) [('P', "pw")]
    ["0x1000001"] [] _ _ _ rfl rfl (by decide) rfl

/-! ## Validation failures -/

theorem check_options_read_ok (lib : Lib) (c : tpm_nvundefine_ctx)
    (hist : List Call)
    (h1 : (check_options lib c hist).rc = tool_rc_success) :
    (lib.tpm2_util_nv_read_public hist c.nv_index).1 = tool_rc_success := by
  by_contra hne
  unfold check_options at h1
  simp only [ne_eq, hne, not_false_eq_true, if_true] at h1

theorem check_options_rc (lib : Lib) (c : tpm_nvundefine_ctx)
    (hist : List Call)
    (hrd : (lib.tpm2_util_nv_read_public hist c.nv_index).1 = tool_rc_success) :
    (check_options lib c hist).rc =
      if ((lib.tpm2_util_nv_read_public hist c.nv_index).2 &&&
          lib.TPMA_NV_POLICY_DELETE != 0) && !c.policy_session.path.isSome
      then tool_rc_option_error else tool_rc_success := by
  unfold check_options
  simp only [hrd, ne_eq, not_true_eq_false, if_false]
  by_cases hs : c.is_auth_hierarchy_specified = true <;>
    by_cases hb : (lib.tpm2_util_nv_read_public hist c.nv_index).2 &&&
      lib.TPMA_NV_POLICY_DELETE = 0 <;>
    by_cases hc : (lib.tpm2_util_nv_read_public hist c.nv_index).2 &&&
      lib.TPMA_NV_PLATFORMCREATE = 0 <;>
    cases hp : c.policy_session.path <;> simp [hs, hb, hc, hp]

theorem on_option_policy_path (k : Char) (v : String) (c : tpm_nvundefine_ctx)
    (hk : k ≠ 'S') :
    (on_option k v c).2.policy_session.path = c.policy_session.path := by
  unfold on_option
  simp only [hk, if_false]
  split_ifs <;> rfl

theorem run_options_no_session (opts : List (Char × String)) :
    ∀ (c c1 : tpm_nvundefine_ctx), run_options opts c = (true, c1) →
      (∀ kv ∈ opts, kv.1 ≠ 'S') →
      c1.policy_session.path = c.policy_session.path := by
  induction opts with
  | nil =>
    intro c c1 h _
    simp only [run_options, Prod.mk.injEq, true_and] at h
    rw [← h]
  | cons kv rest ih =>
    intro c c1 h hno
    obtain ⟨k, v⟩ := kv
    simp only [run_options] at h
    by_cases hacc : (on_option k v c).1 = true
    · rw [if_pos hacc] at h
      rw [ih _ _ h (fun kv hkv => hno kv (List.mem_cons_of_mem _ hkv))]
      exact on_option_policy_path k v c (hno (k, v) (List.mem_cons_self _ _))
    · rw [if_neg hacc] at h
      simp at h

/-- C5: in every run in which the attributes read have the policy-delete bit
set and the context has no policy-session path, the run returns
`tool_rc_option_error` and its only library call is the NV public read: no
hierarchy object is loaded, no session is restored and no undefine call is
made. The context has no policy-session path after every accepted option
sequence without an 'S' option. -/
theorem onrun_policy_session_missing (lib : Lib) (c : tpm_nvundefine_ctx)
    (hist : List Call)
    (hrd : (lib.tpm2_util_nv_read_public hist c.nv_index).1 = tool_rc_success)
    (hbit : (lib.tpm2_util_nv_read_public hist c.nv_index).2 &&&
      lib.TPMA_NV_POLICY_DELETE ≠ 0)
    (hpath : c.policy_session.path = none) :
    ((tpm2_tool_onrun lib c hist).rc = tool_rc_option_error ∧
      (tpm2_tool_onrun lib c hist).trace = hist ++
        [Call.nv_read_public c.nv_index tool_rc_success
          (lib.tpm2_util_nv_read_public hist c.nv_index).2]) ∧
    (∀ (opts : List (Char × String)) (c0 : tpm_nvundefine_ctx)
      (argv : List String),
      run_options opts (ctx lib) = (true, c0) → (∀ kv ∈ opts, kv.1 ≠ 'S') →
      (on_arg lib argv c0).2.policy_session.path = none) := by
  refine ⟨?_, ?_⟩
  · have hco : (check_options lib c hist).rc = tool_rc_option_error := by
      rw [check_options_rc lib c hist hrd]
      simp [hbit, hpath]
    have htr := check_options_trace lib c hist
    rw [hrd] at htr
    unfold tpm2_tool_onrun
    simp only [hco, ne_eq, reduceCtorEq, not_false_eq_true, if_true]
    exact ⟨trivial, htr⟩
  · intro opts c0 argv hopts hno
    exact run_options_no_session opts (ctx lib) c0 hopts hno

theorem onrun_policy_session_missing_witness :
    (tpm2_tool_onrun (sampleLib 0x400 1) (sample_ctx [('P', "pw")]) []).rc =
      tool_rc_option_error ∧
    (tpm2_tool_onrun (sampleLib 0x400 1) (sample_ctx [('P', "pw")]) []).trace =
      [] ++ [Call.nv_read_public 0x1000001 tool_rc_success 0x400] :=
  (onrun_policy_session_missing (sampleLib 0x400 1) (sample_ctx [('P', "pw")])
    [] (by decide) (by decide) (by decide)).1

/-- C6: in every run in which the policy-delete bit is set and the session
restored from the policy-session path is not of policy type, the run returns
`tool_rc_option_error`; after the NV public read its only library calls are
the hierarchy load and the session restore, so no undefine call is made. -/
theorem onrun_policy_session_wrong_type (lib : Lib) (c : tpm_nvundefine_ctx)
    (hist : List Call) (r1 : Run) (obj : tpm2_loaded_object)
    (s : Option tpm2_session)
    (hco : check_options lib c hist = r1) (h1 : r1.rc = tool_rc_success)
    (hbit : (lib.tpm2_util_nv_read_public hist c.nv_index).2 &&&
      lib.TPMA_NV_POLICY_DELETE ≠ 0)
    (hload : lib.tpm2_util_object_load_auth r1.trace
      r1.ctx.auth_hierarchy.ctx_path r1.ctx.auth_hierarchy.auth_str
      r1.ctx.auth_hierarchy.object = (tool_rc_success, obj))
    (hrest : lib.tpm2_session_restore
      (r1.trace ++ [Call.object_load_auth r1.ctx.auth_hierarchy.ctx_path
        r1.ctx.auth_hierarchy.auth_str tool_rc_success])
      r1.ctx.policy_session.path r1.ctx.policy_session.session =
      (tool_rc_success, s))
    (hty : lib.tpm2_session_get_type s ≠ lib.TPM2_SE_POLICY) :
    (tpm2_tool_onrun lib c hist).rc = tool_rc_option_error ∧
    (tpm2_tool_onrun lib c hist).trace = r1.trace ++
      [Call.object_load_auth r1.ctx.auth_hierarchy.ctx_path
        r1.ctx.auth_hierarchy.auth_str tool_rc_success,
       Call.session_restore r1.ctx.policy_session.path tool_rc_success s] ∧
    undefine_calls (tpm2_tool_onrun lib c hist).trace = undefine_calls hist := by
  have hrd := check_options_read_ok lib c hist (by rw [hco]; exact h1)
  have hpd : r1.ctx.has_policy_delete_set = true := by
    rw [← hco, (check_options_flag lib c hist hrd).1]
    simpa using hbit
  have hpi : process_inputs lib r1.ctx r1.trace =
      { rc := tool_rc_option_error,
        ctx := { r1.ctx with
          auth_hierarchy := { r1.ctx.auth_hierarchy with object := obj },
          policy_session := { r1.ctx.policy_session with session := s } },
        trace := r1.trace ++
          [Call.object_load_auth r1.ctx.auth_hierarchy.ctx_path
            r1.ctx.auth_hierarchy.auth_str tool_rc_success,
           Call.session_restore r1.ctx.policy_session.path tool_rc_success
            s] } := by
    unfold process_inputs
    simp [hload, hrest, hpd, hty]
  have hrun : tpm2_tool_onrun lib c hist = process_inputs lib r1.ctx r1.trace := by
    unfold tpm2_tool_onrun
    simp only [hco, h1, ne_eq, not_true_eq_false, if_false, hpi, reduceCtorEq,
      not_false_eq_true, if_true]
  refine ⟨?_, ?_, ?_⟩
  · rw [hrun, hpi]
  · rw [hrun, hpi]
  · rw [hrun, process_inputs_undefine_calls, ← hco, check_options_undefine_calls]

theorem onrun_policy_session_wrong_type_witness :
    (tpm2_tool_onrun (sampleLib 0x400 0) (sample_ctx [('S', "hmac.ctx")])
      []).rc = tool_rc_option_error ∧
    undefine_calls (tpm2_tool_onrun (sampleLib 0x400 0)
      (sample_ctx [('S', "hmac.ctx")]) []).trace = undefine_calls [] :=
  have h := onrun_policy_session_wrong_type (sampleLib 0x400 0)
    (sample_ctx [('S', "hmac.ctx")]) [] _ _ (some 11) rfl (by decide)
    (by decide) rfl rfl (by decide)
  ⟨h.1, h.2.2⟩

/-! ## Session slots after the options -/

theorem on_option_other (k : Char) (v : String) (c : tpm_nvundefine_ctx)
    (hk : k ≠ 'S') :
    (on_option k v c).2.aux_session_cnt = c.aux_session_cnt ∧
    (on_option k v c).2.aux_session_path = c.aux_session_path ∧
    (on_option k v c).2.policy_session.path = c.policy_session.path := by
  unfold on_option
  simp only [hk, if_false]
  split_ifs <;> exact ⟨rfl, rfl, rfl⟩

theorem on_option_session (v : String) (c : tpm_nvundefine_ctx) :
    on_option 'S' v c =
      if c.aux_session_cnt < MAX_AUX_SESSIONS then
        (true, { c with
          policy_session :=
            if c.aux_session_cnt = 0 then
              { c.policy_session with path := some v }
            else c.policy_session,
          aux_session_path := c.aux_session_path.set c.aux_session_cnt (some v),
          aux_session_cnt := (c.aux_session_cnt + 1) % 256 })
      else
        (false, { c with
          policy_session :=
            if c.aux_session_cnt = 0 then
              { c.policy_session with path := some v }
            else c.policy_session,
          aux_session_path :=
            c.aux_session_path.set c.aux_session_cnt (some v) }) := by
  unfold on_option
  by_cases h0 : c.aux_session_cnt = 0 <;>
    by_cases h2 : c.aux_session_cnt < MAX_AUX_SESSIONS <;>
    simp [h0, h2]

theorem on_option_sessions (k : Char) (v : String)
    (c c1 : tpm_nvundefine_ctx) (ps : List String)
    (h : on_option k v c = (true, c1))
    (hcnt : c.aux_session_cnt = ps.length)
    (hpaths : c.aux_session_path = { e0 := ps[0]?, e1 := ps[1]? })
    (hpol : c.policy_session.path = ps[0]?)
    (hlen : ps.length ≤ MAX_AUX_SESSIONS) :
    (ps ++ session_paths [(k, v)]).length ≤ MAX_AUX_SESSIONS ∧
    c1.aux_session_cnt = (ps ++ session_paths [(k, v)]).length ∧
    c1.aux_session_path = { e0 := (ps ++ session_paths [(k, v)])[0]?,
                            e1 := (ps ++ session_paths [(k, v)])[1]? } ∧
    c1.policy_session.path = (ps ++ session_paths [(k, v)])[0]? := by
  by_cases hS : k = 'S'
  · subst hS
    rw [on_option_session] at h
    match ps, hcnt, hpaths, hpol with
    | [], hcnt, hpaths, hpol =>
      simp only [hcnt, List.length_nil, MAX_AUX_SESSIONS, Nat.lt_add_one,
        Nat.ofNat_pos, if_true, Prod.mk.injEq, true_and] at h
      subst h
      simp [session_paths, Arr2.set, hpaths, MAX_AUX_SESSIONS]
    | [a], hcnt, hpaths, hpol =>
      simp only [hcnt, List.length_singleton, MAX_AUX_SESSIONS, Nat.one_lt_ofNat,
        if_true, Prod.mk.injEq, true_and] at h
      subst h
      simp [session_paths, Arr2.set, hpaths, hpol, MAX_AUX_SESSIONS]
    | a :: b :: l, hcnt, hpaths, hpol =>
      have hlt : ¬ c.aux_session_cnt < MAX_AUX_SESSIONS := by
        rw [hcnt]
        simp [MAX_AUX_SESSIONS]
      rw [if_neg hlt] at h
      simp at h
  · have ho := on_option_other k v c hS
    have hc1 : c1 = (on_option k v c).2 := by rw [h]
    have hsp : session_paths [(k, v)] = [] := by simp [session_paths, hS]
    rw [hsp, List.append_nil, hc1, ho.1, ho.2.1, ho.2.2]
    exact ⟨hlen, hcnt, hpaths, hpol⟩

theorem run_options_sessions (opts : List (Char × String)) :
    ∀ (c c1 : tpm_nvundefine_ctx) (ps : List String),
      run_options opts c = (true, c1) →
      c.aux_session_cnt = ps.length →
      c.aux_session_path = { e0 := ps[0]?, e1 := ps[1]? } →
      c.policy_session.path = ps[0]? →
      ps.length ≤ MAX_AUX_SESSIONS →
      (ps ++ session_paths opts).length ≤ MAX_AUX_SESSIONS ∧
      c1.aux_session_cnt = (ps ++ session_paths opts).length ∧
      c1.aux_session_path = { e0 := (ps ++ session_paths opts)[0]?,
                              e1 := (ps ++ session_paths opts)[1]? } ∧
      c1.policy_session.path = (ps ++ session_paths opts)[0]? := by
  induction opts with
  | nil =>
    intro c c1 ps h hcnt hpaths hpol hlen
    simp only [run_options, Prod.mk.injEq, true_and] at h
    subst h
    simp [session_paths, hcnt, hpaths, hpol, hlen]
  | cons kv rest ih =>
    intro c c1 ps h hcnt hpaths hpol hlen
    obtain ⟨k, v⟩ := kv
    simp only [run_options] at h
    by_cases hacc : (on_option k v c).1 = true
    · rw [if_pos hacc] at h
      have hstep := on_option_sessions k v c (on_option k v c).2 ps
        (by rw [← hacc]) hcnt hpaths hpol hlen
      have := ih _ _ _ h hstep.2.1 hstep.2.2.1 hstep.2.2.2 hstep.1
      have happ : ps ++ session_paths [(k, v)] ++ session_paths rest =
          ps ++ session_paths ((k, v) :: rest) := by
        simp [session_paths, List.filter_cons]
        split_ifs <;> simp
      rw [happ] at this
      exact this
    · rw [if_neg hacc] at h
      simp at h

theorem process_inputs_sessions_trace (lib : Lib) (c : tpm_nvundefine_ctx)
    (hist : List Call) :
    ∃ rc rest, (process_inputs_sessions lib c hist).trace = hist ++
      Call.aux_sessions_setup c.aux_session_cnt c.aux_session_path rc ::
        rest := by
  unfold process_inputs_sessions
  by_cases hs : (lib.tpm2_util_aux_sessions_setup hist c.aux_session_cnt
      c.aux_session_path c.aux_session_handle c.aux_session).1 = tool_rc_success
  · simp only [hs, ne_eq, not_true_eq_false, if_false]
    exact ⟨_, _, by rw [List.append_assoc]; rfl⟩
  · simp only [ne_eq, hs, not_false_eq_true, if_true]
    exact ⟨_, [], rfl⟩

theorem process_inputs_standard (lib : Lib) (c : tpm_nvundefine_ctx)
    (hist : List Call) (obj : tpm2_loaded_object)
    (hload : lib.tpm2_util_object_load_auth hist c.auth_hierarchy.ctx_path
      c.auth_hierarchy.auth_str c.auth_hierarchy.object =
      (tool_rc_success, obj))
    (hpd : c.has_policy_delete_set = false) :
    process_inputs lib c hist = process_inputs_sessions lib
      { c with auth_hierarchy := { c.auth_hierarchy with object := obj } }
      (hist ++ [Call.object_load_auth c.auth_hierarchy.ctx_path
        c.auth_hierarchy.auth_str tool_rc_success]) := by
  unfold process_inputs
  simp [hload, hpd]

theorem process_inputs_privileged (lib : Lib) (c : tpm_nvundefine_ctx)
    (hist : List Call) (obj : tpm2_loaded_object) (s : Option tpm2_session)
    (hload : lib.tpm2_util_object_load_auth hist c.auth_hierarchy.ctx_path
      c.auth_hierarchy.auth_str c.auth_hierarchy.object =
      (tool_rc_success, obj))
    (hpd : c.has_policy_delete_set = true)
    (hrest : lib.tpm2_session_restore
      (hist ++ [Call.object_load_auth c.auth_hierarchy.ctx_path
        c.auth_hierarchy.auth_str tool_rc_success])
      c.policy_session.path c.policy_session.session = (tool_rc_success, s))
    (hty : lib.tpm2_session_get_type s = lib.TPM2_SE_POLICY) :
    process_inputs lib c hist = process_inputs_sessions lib
      { c with
        auth_hierarchy := { c.auth_hierarchy with object := obj },
        policy_session := { c.policy_session with session := s },
        aux_session_cnt := (c.aux_session_cnt + 255) % 256,
        aux_session_path :=
          (c.aux_session_path.set 0 (c.aux_session_path.get 1 none)).set 1
            none }
      (hist ++ [Call.object_load_auth c.auth_hierarchy.ctx_path
          c.auth_hierarchy.auth_str tool_rc_success,
        Call.session_restore c.policy_session.path tool_rc_success s]) := by
  unfold process_inputs
  simp [hload, hpd, hrest, hty]

/-- C7: after any accepted option sequence with session paths `ps` (one or
two of them on the privileged path), the context holds `ps` in the auxiliary
slots with count `ps.length`. When the policy-delete flag is set and
`process_inputs` passes validation, the policy-session path is the first
session path, the count and the path list handed to the auxiliary-session
setup are the count minus one and the list shifted left by one (slot 0 is
the old slot 1, slot 1 is empty), and the context keeps them. When the flag
is not set, the count and the path list are handed over and kept unchanged. -/
theorem role_reassignment (lib : Lib) (opts : List (Char × String))
    (argv : List String) (hist : List Call) (c0 c : tpm_nvundefine_ctx)
    (r1 r2 : Run) (obj : tpm2_loaded_object)
    (hopts : run_options opts (ctx lib) = (true, c0))
    (harg : (on_arg lib argv c0).2 = c)
    (hco : check_options lib c hist = r1) (h1 : r1.rc = tool_rc_success)
    (hload : lib.tpm2_util_object_load_auth r1.trace
      r1.ctx.auth_hierarchy.ctx_path r1.ctx.auth_hierarchy.auth_str
      r1.ctx.auth_hierarchy.object = (tool_rc_success, obj))
    (hpi : process_inputs lib r1.ctx r1.trace = r2) :
    (r1.ctx.aux_session_cnt = (session_paths opts).length ∧
      r1.ctx.aux_session_path =
        { e0 := (session_paths opts)[0]?, e1 := (session_paths opts)[1]? }) ∧
    (∀ s : Option tpm2_session, r1.ctx.has_policy_delete_set = true →
      lib.tpm2_session_restore
        (r1.trace ++ [Call.object_load_auth r1.ctx.auth_hierarchy.ctx_path
          r1.ctx.auth_hierarchy.auth_str tool_rc_success])
        (session_paths opts)[0]? r1.ctx.policy_session.session =
        (tool_rc_success, s) →
      lib.tpm2_session_get_type s = lib.TPM2_SE_POLICY →
      1 ≤ (session_paths opts).length ∧
      r2.ctx.policy_session.path = (session_paths opts)[0]? ∧
      r2.ctx.aux_session_cnt = (session_paths opts).length - 1 ∧
      r2.ctx.aux_session_path =
        { e0 := (session_paths opts)[1]?, e1 := none } ∧
      ∃ rc rest, r2.trace = r1.trace ++
        [Call.object_load_auth r1.ctx.auth_hierarchy.ctx_path
          r1.ctx.auth_hierarchy.auth_str tool_rc_success,
         Call.session_restore (session_paths opts)[0]? tool_rc_success s,
         Call.aux_sessions_setup ((session_paths opts).length - 1)
          { e0 := (session_paths opts)[1]?, e1 := none } rc] ++ rest) ∧
    (r1.ctx.has_policy_delete_set = false →
      r2.ctx.aux_session_cnt = (session_paths opts).length ∧
      r2.ctx.aux_session_path =
        { e0 := (session_paths opts)[0]?, e1 := (session_paths opts)[1]? } ∧
      ∃ rc rest, r2.trace = r1.trace ++
        [Call.object_load_auth r1.ctx.auth_hierarchy.ctx_path
          r1.ctx.auth_hierarchy.auth_str tool_rc_success,
         Call.aux_sessions_setup (session_paths opts).length
          { e0 := (session_paths opts)[0]?, e1 := (session_paths opts)[1]? }
          rc] ++ rest) := by
  have hsh := run_options_sessions opts (ctx lib) c0 [] hopts rfl rfl rfl
    (by simp [MAX_AUX_SESSIONS])
  rw [List.nil_append] at hsh
  obtain ⟨hlen, hcnt0, hpaths0, hpol0⟩ := hsh
  have hrd := check_options_read_ok lib c hist (by rw [hco]; exact h1)
  have hf := check_options_flag lib c hist hrd
  rw [hco] at hf
  obtain ⟨hflag, -, hpol1, hcnt1, hpaths1⟩ := hf
  have hcnt : r1.ctx.aux_session_cnt = (session_paths opts).length := by
    rw [hcnt1, ← harg]; exact hcnt0
  have hpaths : r1.ctx.aux_session_path =
      { e0 := (session_paths opts)[0]?, e1 := (session_paths opts)[1]? } := by
    rw [hpaths1, ← harg]; exact hpaths0
  have hpol : r1.ctx.policy_session.path = (session_paths opts)[0]? := by
    rw [hpol1, ← harg]; exact hpol0
  refine ⟨⟨hcnt, hpaths⟩, ?_, ?_⟩
  · intro s hpd hrest hty
    have hne : 1 ≤ (session_paths opts).length := by
      have hrc := check_options_rc lib c hist hrd
      rw [hco, h1, ← hflag, hpd] at hrc
      have hsome : c.policy_session.path.isSome = true := by
        by_contra hn
        simp [hn] at hrc
      rw [← hpol1, hpol] at hsome
      cases hps : session_paths opts with
      | nil => rw [hps] at hsome; simp at hsome
      | cons a l => simp
    rw [← hpol] at hrest
    have hp := process_inputs_privileged lib r1.ctx r1.trace obj s hload hpd
      hrest hty
    rw [hpi] at hp
    have hk := process_inputs_sessions_keeps lib
      { r1.ctx with
        auth_hierarchy := { r1.ctx.auth_hierarchy with object := obj },
        policy_session := { r1.ctx.policy_session with session := s },
        aux_session_cnt := (r1.ctx.aux_session_cnt + 255) % 256,
        aux_session_path :=
          (r1.ctx.aux_session_path.set 0
            (r1.ctx.aux_session_path.get 1 none)).set 1 none }
      (r1.trace ++ [Call.object_load_auth r1.ctx.auth_hierarchy.ctx_path
          r1.ctx.auth_hierarchy.auth_str tool_rc_success,
        Call.session_restore r1.ctx.policy_session.path tool_rc_success s])
    obtain ⟨rc, rest, htr⟩ := process_inputs_sessions_trace lib
      { r1.ctx with
        auth_hierarchy := { r1.ctx.auth_hierarchy with object := obj },
        policy_session := { r1.ctx.policy_session with session := s },
        aux_session_cnt := (r1.ctx.aux_session_cnt + 255) % 256,
        aux_session_path :=
          (r1.ctx.aux_session_path.set 0
            (r1.ctx.aux_session_path.get 1 none)).set 1 none }
      (r1.trace ++ [Call.object_load_auth r1.ctx.auth_hierarchy.ctx_path
          r1.ctx.auth_hierarchy.auth_str tool_rc_success,
        Call.session_restore r1.ctx.policy_session.path tool_rc_success s])
    rw [← hp] at hk htr
    have hc : (r1.ctx.aux_session_cnt + 255) % 256 =
        (session_paths opts).length - 1 := by
      rw [hcnt]
      simp only [MAX_AUX_SESSIONS] at hlen
      omega
    have hsft : (r1.ctx.aux_session_path.set 0
        (r1.ctx.aux_session_path.get 1 none)).set 1 none =
        { e0 := (session_paths opts)[1]?, e1 := none } := by
      rw [hpaths]
      simp [Arr2.set, Arr2.get]
    simp only [hc, hsft] at hk htr
    refine ⟨hne, ?_, hk.2.2.2.1, hk.2.2.2.2.1, rc, rest, ?_⟩
    · rw [hk.2.2.1]; exact hpol
    · rw [htr, hpol]; simp
  · intro hpd
    have hp := process_inputs_standard lib r1.ctx r1.trace obj hload hpd
    rw [hpi] at hp
    have hk := process_inputs_sessions_keeps lib
      { r1.ctx with
        auth_hierarchy := { r1.ctx.auth_hierarchy with object := obj } }
      (r1.trace ++ [Call.object_load_auth r1.ctx.auth_hierarchy.ctx_path
          r1.ctx.auth_hierarchy.auth_str tool_rc_success])
    obtain ⟨rc, rest, htr⟩ := process_inputs_sessions_trace lib
      { r1.ctx with
        auth_hierarchy := { r1.ctx.auth_hierarchy with object := obj } }
      (r1.trace ++ [Call.object_load_auth r1.ctx.auth_hierarchy.ctx_path
          r1.ctx.auth_hierarchy.auth_str tool_rc_success])
    rw [← hp] at hk htr
    simp only [hcnt, hpaths] at hk htr
    refine ⟨hk.2.2.2.1, hk.2.2.2.2.1, rc, rest, ?_⟩
    rw [htr]; simp

theorem role_reassignment_witness :
    (process_inputs (sampleLib 0x400 1)
      (check_options (sampleLib 0x400 1)
        (sample_ctx [('S', "p1"), ('S', "p2")]) []).ctx
      (check_options (sampleLib 0x400 1)
        (sample_ctx [('S', "p1"), ('S', "p2")]) []).trace).ctx.aux_session_cnt
      = 1 ∧
    (process_inputs (sampleLib 0x400 1)
      (check_options (sampleLib 0x400 1)
        (sample_ctx [('S', "p1"), ('S', "p2")]) []).ctx
      (check_options (sampleLib 0x400 1)
        (sample_ctx [('S', "p1"), ('S', "p2")]) []).trace).ctx.aux_session_path
      = { e0 := some "p2", e1 := none } :=
  have h := (role_reassignment (sampleLib 0x400 1)
    [('S', "p1"), ('S', "p2")] ["0x1000001"] [] _ _ _ _ _ rfl rfl rfl
    (by decide) rfl rfl).2.1 (some 11) (by decide) (by decide) (by decide)
  ⟨h.2.2.1, h.2.2.2.1⟩

/-! ## The session list of the parameter-hash computation -/

theorem process_inputs_sessions_phash (lib : Lib) (c : tpm_nvundefine_ctx)
    (hist : List Call)
    (h : (process_inputs_sessions lib c hist).rc = tool_rc_success) :
    phash_calls (process_inputs_sessions lib c hist).trace =
      phash_calls hist ++ [Call.calculate_phash_algorithm c.cp_hash_path
        c.rp_hash_path
        [(process_inputs_sessions lib c hist).ctx.auth_hierarchy.object.session,
         if (process_inputs_sessions lib c hist).ctx.has_policy_delete_set then
           (process_inputs_sessions lib c hist).ctx.policy_session.session
         else (process_inputs_sessions lib c hist).ctx.aux_session.get 0 none,
         if (process_inputs_sessions lib c hist).ctx.has_policy_delete_set then
           (process_inputs_sessions lib c hist).ctx.aux_session.get 0 none
         else (process_inputs_sessions lib c hist).ctx.aux_session.get 1 none]
        (process_inputs_sessions lib c hist).ctx.parameter_hash_algorithm] := by
  unfold process_inputs_sessions at h ⊢
  by_cases hs : (lib.tpm2_util_aux_sessions_setup hist c.aux_session_cnt
      c.aux_session_path c.aux_session_handle c.aux_session).1 = tool_rc_success
  · simp only [hs, ne_eq, not_true_eq_false, if_false]
    simp only [phash_calls, List.filter_append, List.filter_cons,
      List.filter_nil, is_phash_call, Bool.false_eq_true, if_false, if_true,
      List.append_nil]
  · simp only [ne_eq, hs, not_false_eq_true, if_true] at h

theorem process_inputs_success (lib : Lib) (c : tpm_nvundefine_ctx)
    (hist : List Call)
    (h : (process_inputs lib c hist).rc = tool_rc_success) :
    ∃ c1 hist1, process_inputs lib c hist =
        process_inputs_sessions lib c1 hist1 ∧
      phash_calls hist1 = phash_calls hist ∧
      c1.cp_hash_path = c.cp_hash_path ∧ c1.rp_hash_path = c.rp_hash_path := by
  unfold process_inputs at h ⊢
  simp only [] at h ⊢
  split_ifs at h ⊢ with h1 h3 h4 h5
  · exact absurd h h1
  · exact absurd h h4
  · exact ⟨_, _, rfl, by simp [phash_calls, List.filter_append, is_phash_call],
      rfl, rfl⟩
  · exact ⟨_, _, rfl, by simp [phash_calls, List.filter_append, is_phash_call],
      rfl, rfl⟩

/-- C8: whenever `process_inputs` reaches the parameter-hash computation
(returns success), it makes exactly one such call, and the session list it
passes is [session of the hierarchy object, S1, S2], where S1 is the policy
session and S2 auxiliary session 0 when the policy-delete flag is set, and
S1 is auxiliary session 0 and S2 auxiliary session 1 when it is not; an
absent session is `none`. -/
theorem phash_session_list (lib : Lib) (c : tpm_nvundefine_ctx)
    (hist : List Call) (r2 : Run)
    (hpi : process_inputs lib c hist = r2) (h2 : r2.rc = tool_rc_success) :
    phash_calls r2.trace = phash_calls hist ++
      [Call.calculate_phash_algorithm c.cp_hash_path c.rp_hash_path
        [r2.ctx.auth_hierarchy.object.session,
         if r2.ctx.has_policy_delete_set then r2.ctx.policy_session.session
         else r2.ctx.aux_session.get 0 none,
         if r2.ctx.has_policy_delete_set then r2.ctx.aux_session.get 0 none
         else r2.ctx.aux_session.get 1 none]
        r2.ctx.parameter_hash_algorithm] := by
  subst hpi
  obtain ⟨c1, hist1, heq, hph, hcp, hrp⟩ := process_inputs_success lib c hist h2
  rw [heq] at h2 ⊢
  rw [process_inputs_sessions_phash lib c1 hist1 h2, hph, hcp, hrp]

theorem phash_session_list_witness :
    phash_calls (process_inputs (sampleLib 0x400 1)
      (check_options (sampleLib 0x400 1)
        (sample_ctx [('S', "p1"), ('S', "p2")]) []).ctx []).trace =
      phash_calls [] ++ [Call.calculate_phash_algorithm none none
        [some 7, some 11, some 21] 11] :=
  phash_session_list (sampleLib 0x400 1)
    (check_options (sampleLib 0x400 1)
      (sample_ctx [('S', "p1"), ('S', "p2")]) []).ctx [] _ rfl (by decide)

/-! ## Teardown -/

theorem last_failure_chain (outs1 outs2 : List tool_rc) (rc0 : tool_rc) :
    ((outs2.reverse.find? (fun r => r ≠ tool_rc_success)).getD
      ((outs1.reverse.find? (fun r => r ≠ tool_rc_success)).getD rc0)) =
    (((outs1 ++ outs2).reverse.find? (fun r => r ≠ tool_rc_success)).getD
      rc0) := by
  rw [List.reverse_append, List.find?_append]
  cases (outs2.reverse.find? (fun r => r ≠ tool_rc_success)) <;> simp

theorem close_outcomes_append (a b : List Call) :
    close_outcomes (a ++ b) = close_outcomes a ++ close_outcomes b := by
  simp [close_outcomes]

theorem closed_slots_append (a b : List Call) :
    closed_slots (a ++ b) = closed_slots a ++ closed_slots b := by
  simp [closed_slots]

theorem close_slot_spec (lib : Lib) (slot : SessionSlot)
    (s : Option tpm2_session) (rc : tool_rc) (hist : List Call) :
    ∃ ext, (close_slot lib slot s rc hist).2.2 = hist ++ ext ∧
      closed_slots ext = [slot] ∧
      (close_slot lib slot s rc hist).1 =
        (((close_outcomes ext).reverse.find?
          (fun r => r ≠ tool_rc_success)).getD rc) := by
  refine ⟨[Call.session_close slot s (lib.tpm2_session_close hist s).1], rfl,
    rfl, ?_⟩
  unfold close_slot
  by_cases h : (lib.tpm2_session_close hist s).1 = tool_rc_success
  · simp [close_outcomes, h]
  · simp [close_outcomes, h]

theorem onstop_aux_step_spec (lib : Lib) (r : Run) (i : Nat) :
    (onstop_aux_step lib r i).ctx.aux_session_path = r.ctx.aux_session_path ∧
    ∃ ext, (onstop_aux_step lib r i).trace = r.trace ++ ext ∧
      closed_slots ext =
        (if (r.ctx.aux_session_path.get i none).isSome then [SessionSlot.aux i]
          else []) ∧
      (onstop_aux_step lib r i).rc =
        (((close_outcomes ext).reverse.find?
          (fun r => r ≠ tool_rc_success)).getD r.rc) := by
  unfold onstop_aux_step
  by_cases hp : (r.ctx.aux_session_path.get i none).isSome = true
  · simp only [hp, if_true]
    refine ⟨trivial, ?_⟩
    exact close_slot_spec lib (SessionSlot.aux i) (r.ctx.aux_session.get i none)
      r.rc r.trace
  · simp only [hp, Bool.false_eq_true, if_false]
    exact ⟨trivial, [], by simp, rfl, rfl⟩

theorem onstop_loop_spec (lib : Lib) (l : List Nat) :
    ∀ r : Run,
      (l.foldl (onstop_aux_step lib) r).ctx.aux_session_path =
        r.ctx.aux_session_path ∧
      ∃ ext, (l.foldl (onstop_aux_step lib) r).trace = r.trace ++ ext ∧
        closed_slots ext =
          (l.filter (fun i => (r.ctx.aux_session_path.get i none).isSome)).map
            SessionSlot.aux ∧
        (l.foldl (onstop_aux_step lib) r).rc =
          (((close_outcomes ext).reverse.find?
            (fun r => r ≠ tool_rc_success)).getD r.rc) := by
  induction l with
  | nil =>
    intro r
    exact ⟨rfl, [], by simp, rfl, rfl⟩
  | cons i l ih =>
    intro r
    obtain ⟨hp1, ext1, ht1, hs1, hr1⟩ := onstop_aux_step_spec lib r i
    obtain ⟨hp2, ext2, ht2, hs2, hr2⟩ := ih (onstop_aux_step lib r i)
    rw [List.foldl_cons]
    refine ⟨by rw [hp2, hp1], ext1 ++ ext2, ?_, ?_, ?_⟩
    · rw [ht2, ht1, List.append_assoc]
    · rw [closed_slots_append, hs1, hs2, hp1, List.filter_cons]
      by_cases hp : (r.ctx.aux_session_path.get i none).isSome = true
      · simp [hp]
      · simp [hp]
    · rw [hr2, hr1, close_outcomes_append]
      exact last_failure_chain _ _ _

theorem onstop_spec (lib : Lib) (c : tpm_nvundefine_ctx) (hist : List Call) :
    ∃ ext, (tpm2_tool_onstop lib c hist).trace = hist ++ ext ∧
      closed_slots ext = SessionSlot.policy_session ::
        SessionSlot.auth_hierarchy ::
        ((List.range c.aux_session_cnt).filter
          (fun i => (c.aux_session_path.get i none).isSome)).map
          SessionSlot.aux ∧
      (tpm2_tool_onstop lib c hist).rc = last_failure (close_outcomes ext) := by
  unfold tpm2_tool_onstop
  simp only []
  obtain ⟨e1, ht1, hs1, hr1⟩ := close_slot_spec lib SessionSlot.policy_session
    c.policy_session.session tool_rc_success hist
  obtain ⟨e2, ht2, hs2, hr2⟩ := close_slot_spec lib SessionSlot.auth_hierarchy
    c.auth_hierarchy.object.session
    (close_slot lib SessionSlot.policy_session c.policy_session.session
      tool_rc_success hist).1
    (close_slot lib SessionSlot.policy_session c.policy_session.session
      tool_rc_success hist).2.2
  obtain ⟨hp3, e3, ht3, hs3, hr3⟩ := onstop_loop_spec lib
    (List.range c.aux_session_cnt)
    { rc := (close_slot lib SessionSlot.auth_hierarchy
        c.auth_hierarchy.object.session
        (close_slot lib SessionSlot.policy_session c.policy_session.session
          tool_rc_success hist).1
        (close_slot lib SessionSlot.policy_session c.policy_session.session
          tool_rc_success hist).2.2).1,
      ctx := { c with
        policy_session := { c.policy_session with
          session := (close_slot lib SessionSlot.policy_session
            c.policy_session.session tool_rc_success hist).2.1 },
        auth_hierarchy := { c.auth_hierarchy with
          object := { c.auth_hierarchy.object with
            session := (close_slot lib SessionSlot.auth_hierarchy
              c.auth_hierarchy.object.session
              (close_slot lib SessionSlot.policy_session
                c.policy_session.session tool_rc_success hist).1
              (close_slot lib SessionSlot.policy_session
                c.policy_session.session tool_rc_success hist).2.2).2.1 } } },
      trace := (close_slot lib SessionSlot.auth_hierarchy
        c.auth_hierarchy.object.session
        (close_slot lib SessionSlot.policy_session c.policy_session.session
          tool_rc_success hist).1
        (close_slot lib SessionSlot.policy_session c.policy_session.session
          tool_rc_success hist).2.2).2.2 }
  refine ⟨e1 ++ e2 ++ e3, ?_, ?_, ?_⟩
  · rw [ht3]
    simp only []
    rw [ht2, ht1, List.append_assoc, List.append_assoc, List.append_assoc]
  · rw [closed_slots_append, closed_slots_append, hs1, hs2, hs3]
    rfl
  · rw [hr3]
    simp only []
    rw [hr2, hr1, last_failure_chain, last_failure_chain, last_failure,
      close_outcomes_append, close_outcomes_append, List.append_assoc]

theorem last_failure_all_success (outs : List tool_rc)
    (h : ∀ r ∈ outs, r = tool_rc_success) :
    last_failure outs = tool_rc_success := by
  unfold last_failure
  have hn : outs.reverse.find? (fun r => r ≠ tool_rc_success) = none := by
    rw [List.find?_eq_none]
    intro x hx
    simp [h x (List.mem_reverse.mp hx)]
  rw [hn]
  rfl

/-- C9, as stated, fails: when the policy-session close fails with
`tool_rc_general_error` and the hierarchy-session close then fails with
`tool_rc_option_error`, teardown reports the second code, not the first. -/
theorem onstop_first_failure_counterexample :
    close_outcomes (tpm2_tool_onstop closeFailLib (sample_ctx []) []).trace =
      [tool_rc_general_error, tool_rc_option_error] ∧
    (tpm2_tool_onstop closeFailLib (sample_ctx []) []).rc =
      tool_rc_option_error ∧
    (tpm2_tool_onstop closeFailLib (sample_ctx []) []).rc ≠
      first_failure (close_outcomes
        (tpm2_tool_onstop closeFailLib (sample_ctx []) []).trace) := by
  decide

/-- C9, amended: for every outcome of the individual session closes, the
result reported by `tpm2_tool_onstop` is the last non-success outcome in
close order (policy session, hierarchy session, auxiliary slots in index
order), and success if every close succeeds. -/
theorem onstop_reports_last_failure (lib : Lib) (c : tpm_nvundefine_ctx)
    (hist : List Call) :
    ∃ ext, (tpm2_tool_onstop lib c hist).trace = hist ++ ext ∧
      closed_slots ext = SessionSlot.policy_session ::
        SessionSlot.auth_hierarchy ::
        ((List.range c.aux_session_cnt).filter
          (fun i => (c.aux_session_path.get i none).isSome)).map
          SessionSlot.aux ∧
      (tpm2_tool_onstop lib c hist).rc = last_failure (close_outcomes ext) ∧
      ((∀ r ∈ close_outcomes ext, r = tool_rc_success) →
        (tpm2_tool_onstop lib c hist).rc = tool_rc_success) := by
  obtain ⟨ext, ht, hs, hr⟩ := onstop_spec lib c hist
  refine ⟨ext, ht, hs, hr, ?_⟩
  intro hall
  rw [hr]
  exact last_failure_all_success _ hall

theorem onstop_reports_last_failure_witness :
    ∃ ext, (tpm2_tool_onstop closeFailLib (sample_ctx [('S', "p1")]) []).trace =
        [] ++ ext ∧
      (tpm2_tool_onstop closeFailLib (sample_ctx [('S', "p1")]) []).rc =
        last_failure (close_outcomes ext) :=
  (onstop_reports_last_failure closeFailLib (sample_ctx [('S', "p1")]) []).imp
    (fun _ h => ⟨h.1, h.2.2.1⟩)

/-! ## Slots that hold a path lie below the count -/

theorem on_option_slots (k : Char) (v : String) (c : tpm_nvundefine_ctx)
    (hs : slots_below_count c) (hc : c.aux_session_cnt ≤ MAX_AUX_SESSIONS) :
    slots_below_count (on_option k v c).2 ∧
    (on_option k v c).2.aux_session_cnt ≤ MAX_AUX_SESSIONS := by
  by_cases hS : k = 'S'
  · subst hS
    rw [on_option_session]
    unfold slots_below_count at hs ⊢
    simp only [MAX_AUX_SESSIONS] at hc ⊢
    by_cases hlt : c.aux_session_cnt < 2
    · rw [if_pos hlt]
      have h01 : c.aux_session_cnt = 0 ∨ c.aux_session_cnt = 1 := by omega
      rcases h01 with h0 | h1
      · have he1 : c.aux_session_path.e1.isSome = false := by
          cases hx : c.aux_session_path.e1.isSome
          · rfl
          · have := hs.2 hx
            omega
        simp [h0, Arr2.set, he1]
      · simp [h1, Arr2.set]
    · rw [if_neg hlt]
      have h2 : c.aux_session_cnt = 2 := by omega
      simp [h2, Arr2.set]
  · have ho := on_option_other k v c hS
    unfold slots_below_count at hs ⊢
    rw [ho.1, ho.2.1]
    exact ⟨hs, hc⟩

theorem run_options_slots (opts : List (Char × String)) :
    ∀ c : tpm_nvundefine_ctx, slots_below_count c →
      c.aux_session_cnt ≤ MAX_AUX_SESSIONS →
      slots_below_count (run_options opts c).2 ∧
      (run_options opts c).2.aux_session_cnt ≤ MAX_AUX_SESSIONS := by
  induction opts with
  | nil =>
    intro c hs hc
    exact ⟨hs, hc⟩
  | cons kv rest ih =>
    intro c hs hc
    obtain ⟨k, v⟩ := kv
    have ho := on_option_slots k v c hs hc
    simp only [run_options]
    by_cases hacc : (on_option k v c).1 = true
    · rw [if_pos hacc]
      exact ih _ ho.1 ho.2
    · rw [if_neg hacc]
      exact ho

theorem check_options_slots (lib : Lib) (c : tpm_nvundefine_ctx)
    (hist : List Call) :
    (check_options lib c hist).ctx.aux_session_cnt = c.aux_session_cnt ∧
    (check_options lib c hist).ctx.aux_session_path = c.aux_session_path := by
  unfold check_options
  simp only []
  split_ifs <;> exact ⟨rfl, rfl⟩

theorem process_inputs_slots (lib : Lib) (c : tpm_nvundefine_ctx)
    (hist : List Call) :
    ((process_inputs lib c hist).ctx.aux_session_cnt = c.aux_session_cnt ∧
      (process_inputs lib c hist).ctx.aux_session_path = c.aux_session_path) ∨
    ((process_inputs lib c hist).ctx.aux_session_cnt =
        (c.aux_session_cnt + 255) % 256 ∧
      (process_inputs lib c hist).ctx.aux_session_path =
        (c.aux_session_path.set 0 (c.aux_session_path.get 1 none)).set 1
          none) := by
  unfold process_inputs
  simp only []
  split_ifs
  · exact Or.inl ⟨rfl, rfl⟩
  · exact Or.inl ⟨rfl, rfl⟩
  · exact Or.inl ⟨rfl, rfl⟩
  · right
    rw [(process_inputs_sessions_keeps lib _ _).2.2.2.1,
      (process_inputs_sessions_keeps lib _ _).2.2.2.2.1]
    exact ⟨rfl, rfl⟩
  · left
    rw [(process_inputs_sessions_keeps lib _ _).2.2.2.1,
      (process_inputs_sessions_keeps lib _ _).2.2.2.2.1]
    exact ⟨rfl, rfl⟩

theorem nv_undefine_slots (lib : Lib) (c : tpm_nvundefine_ctx)
    (hist : List Call) :
    (nv_undefine lib c hist).ctx.aux_session_cnt = c.aux_session_cnt ∧
    (nv_undefine lib c hist).ctx.aux_session_path = c.aux_session_path := by
  unfold nv_undefine
  split_ifs <;> exact ⟨rfl, rfl⟩

theorem process_output_ctx (lib : Lib) (c : tpm_nvundefine_ctx)
    (hist : List Call) : (process_output lib c hist).ctx = c := by
  unfold process_output
  simp only []
  split_ifs
  · rfl
  · rfl
  · cases c.rp_hash_path <;> rfl

theorem process_inputs_slots_below (lib : Lib) (c : tpm_nvundefine_ctx)
    (hist : List Call)
    (hs : slots_below_count c) (hc : c.aux_session_cnt ≤ MAX_AUX_SESSIONS) :
    slots_below_count (process_inputs lib c hist).ctx := by
  unfold slots_below_count at hs ⊢
  simp only [MAX_AUX_SESSIONS] at hc
  rcases process_inputs_slots lib c hist with h | h
  · rw [h.1, h.2]
    exact hs
  · rw [h.1, h.2]
    simp only [Arr2.set, Arr2.get]
    simp
    intro he1
    have := hs.2 he1
    omega

theorem onrun_slots_below (lib : Lib) (c : tpm_nvundefine_ctx)
    (hist : List Call)
    (hs : slots_below_count c) (hc : c.aux_session_cnt ≤ MAX_AUX_SESSIONS) :
    slots_below_count (tpm2_tool_onrun lib c hist).ctx := by
  have hco := check_options_slots lib c hist
  have hs1 : slots_below_count (check_options lib c hist).ctx := by
    unfold slots_below_count at hs ⊢
    rw [hco.1, hco.2]
    exact hs
  have hc1 : (check_options lib c hist).ctx.aux_session_cnt ≤
      MAX_AUX_SESSIONS := by
    rw [hco.1]
    exact hc
  have hs2 := process_inputs_slots_below lib (check_options lib c hist).ctx
    (check_options lib c hist).trace hs1 hc1
  have hs3 : slots_below_count (nv_undefine lib
      (process_inputs lib (check_options lib c hist).ctx
        (check_options lib c hist).trace).ctx
      (process_inputs lib (check_options lib c hist).ctx
        (check_options lib c hist).trace).trace).ctx := by
    unfold slots_below_count at hs2 ⊢
    rw [(nv_undefine_slots lib _ _).1, (nv_undefine_slots lib _ _).2]
    exact hs2
  unfold tpm2_tool_onrun
  simp only []
  split_ifs
  · exact hs1
  · exact hs2
  · exact hs3
  · rw [process_output_ctx]
    exact hs3

theorem slots_below_count_get (c : tpm_nvundefine_ctx)
    (hs : slots_below_count c) (i : Nat)
    (hp : (c.aux_session_path.get i none).isSome = true) :
    i < c.aux_session_cnt := by
  unfold Arr2.get at hp
  by_cases h0 : i = 0
  · rw [if_pos h0] at hp
    rw [h0]
    exact hs.1 hp
  · rw [if_neg h0] at hp
    by_cases h1 : i = 1
    · rw [if_pos h1] at hp
      rw [h1]
      exact hs.2 hp
    · rw [if_neg h1] at hp
      simp at hp

/-- C10: whatever the individual closes return, `tpm2_tool_onstop` closes, in
this order, the policy session, the hierarchy session and then every
auxiliary slot below the count that holds a path, and no other auxiliary
slot: a slot without a path is skipped. In every context left by the options
and by a run, each auxiliary slot that holds a path lies below the count, so
every such slot is closed. -/
theorem onstop_drain (lib : Lib) (c : tpm_nvundefine_ctx) (hist : List Call) :
    (∃ ext, (tpm2_tool_onstop lib c hist).trace = hist ++ ext ∧
      closed_slots ext = SessionSlot.policy_session ::
        SessionSlot.auth_hierarchy ::
        ((List.range c.aux_session_cnt).filter
          (fun i => (c.aux_session_path.get i none).isSome)).map
          SessionSlot.aux ∧
      (∀ i, SessionSlot.aux i ∈ closed_slots ext ↔
        i < c.aux_session_cnt ∧
          (c.aux_session_path.get i none).isSome = true) ∧
      (slots_below_count c → ∀ i,
        (c.aux_session_path.get i none).isSome = true →
        SessionSlot.aux i ∈ closed_slots ext)) ∧
    (∀ (opts : List (Char × String)) (argv : List String)
      (hist0 : List Call),
      slots_below_count (on_arg lib argv (run_options opts (ctx lib)).2).2 ∧
      slots_below_count (tpm2_tool_onrun lib
        (on_arg lib argv (run_options opts (ctx lib)).2).2 hist0).ctx) := by
  refine ⟨?_, ?_⟩
  · obtain ⟨ext, ht, hs, -⟩ := onstop_spec lib c hist
    have hiff : ∀ i, SessionSlot.aux i ∈ closed_slots ext ↔
        i < c.aux_session_cnt ∧
          (c.aux_session_path.get i none).isSome = true := by
      intro i
      rw [hs]
      simp [List.mem_filter, List.mem_range]
    refine ⟨ext, ht, hs, hiff, ?_⟩
    intro hsl i hp
    exact (hiff i).mpr ⟨slots_below_count_get c hsl i hp, hp⟩
  · intro opts argv hist0
    have h0 : slots_below_count (ctx lib) := by
      unfold slots_below_count ctx
      simp
    have hr := run_options_slots opts (ctx lib) h0
      (by simp [ctx, MAX_AUX_SESSIONS])
    have ha : slots_below_count
        (on_arg lib argv (run_options opts (ctx lib)).2).2 := hr.1
    exact ⟨ha, onrun_slots_below lib _ hist0 ha hr.2⟩

theorem onstop_drain_witness :
    SessionSlot.aux 0 ∈ closed_slots
      (tpm2_tool_onstop closeFailLib (sample_ctx [('S', "p1")]) []).trace :=
  (onstop_drain closeFailLib (sample_ctx [('S', "p1")]) []).1.elim
    (fun _ h => by
      rw [h.1, List.nil_append]
      exact h.2.2.2 (by decide) 0 (by decide))

/-! ## How often the session option is accepted -/

theorem on_option_other_accept (k : Char) (v : String)
    (c : tpm_nvundefine_ctx) (hk : k ≠ 'S') : (on_option k v c).1 = true := by
  unfold on_option
  simp only [hk, if_false]
  split_ifs <;> rfl

theorem session_paths_cons (k : Char) (v : String)
    (rest : List (Char × String)) :
    session_paths ((k, v) :: rest) =
      (if k = 'S' then [v] else []) ++ session_paths rest := by
  unfold session_paths
  by_cases hk : k = 'S'
  · simp [hk]
  · simp [hk]

theorem run_options_accept (opts : List (Char × String)) :
    ∀ c : tpm_nvundefine_ctx, c.aux_session_cnt ≤ MAX_AUX_SESSIONS →
      ((run_options opts c).1 = true ↔
        c.aux_session_cnt + (session_paths opts).length ≤
          MAX_AUX_SESSIONS) := by
  induction opts with
  | nil =>
    intro c hc
    simp [run_options, session_paths, hc]
  | cons kv rest ih =>
    intro c hc
    obtain ⟨k, v⟩ := kv
    simp only [run_options]
    by_cases hS : k = 'S'
    · subst hS
      rw [session_paths_cons, if_pos rfl, on_option_session]
      simp only [MAX_AUX_SESSIONS] at hc ih ⊢
      by_cases hlt : c.aux_session_cnt < 2
      · simp only [hlt, if_true]
        rw [ih _ (by simp only []; omega)]
        simp only [List.length_append, List.length_singleton]
        have hm : (c.aux_session_cnt + 1) % 256 = c.aux_session_cnt + 1 := by
          omega
        rw [hm]
        omega
      · simp only [hlt, if_false, Bool.false_eq_true, false_iff]
        simp only [List.length_append, List.length_singleton]
        omega
    · have ha := on_option_other_accept k v c hS
      have ho := on_option_other k v c hS
      rw [session_paths_cons, if_neg hS, if_pos ha,
        ih _ (by rw [ho.1]; exact hc), ho.1, List.nil_append]

/-- C11, as stated, fails: after two session options the third one is
rejected. -/
theorem on_option_third_session_counterexample :
    (on_option 'S' "s3.ctx"
      (run_options [('S', "s1.ctx"), ('S', "s2.ctx")]
        (ctx (sampleLib 0 1))).2).1 = false := by
  decide

/-- C11, amended: the session option is repeatable up to 2 times. Starting
from the initial context `on_option` accepts the first two occurrences and
rejects the third; the first occurrence is also recorded as the
policy-session path and the second leaves that path alone. An option sequence
is accepted exactly when it has at most `MAX_AUX_SESSIONS` session options,
and the policy-session path is then the first of their values. -/
theorem session_option_accepted_twice (lib : Lib) (v1 v2 v3 : String) :
    (on_option 'S' v1 (ctx lib)).1 = true ∧
    (on_option 'S' v1 (ctx lib)).2.policy_session.path = some v1 ∧
    (on_option 'S' v2 (on_option 'S' v1 (ctx lib)).2).1 = true ∧
    (on_option 'S' v2 (on_option 'S' v1 (ctx lib)).2).2.policy_session.path =
      some v1 ∧
    (on_option 'S' v3
      (on_option 'S' v2 (on_option 'S' v1 (ctx lib)).2).2).1 = false ∧
    (∀ opts : List (Char × String),
      (run_options opts (ctx lib)).1 = true ↔
        (session_paths opts).length ≤ MAX_AUX_SESSIONS) ∧
    (∀ (opts : List (Char × String)) (c0 : tpm_nvundefine_ctx),
      run_options opts (ctx lib) = (true, c0) →
      c0.policy_session.path = (session_paths opts)[0]?) := by
  have h1 : on_option 'S' v1 (ctx lib) =
      (true, { ctx lib with
        policy_session := { path := some v1, session := none },
        aux_session_path := { e0 := some v1, e1 := none },
        aux_session_cnt := 1 }) := by
    rw [on_option_session]
    simp [ctx, MAX_AUX_SESSIONS, Arr2.set]
  have h2 : on_option 'S' v2 (on_option 'S' v1 (ctx lib)).2 =
      (true, { ctx lib with
        policy_session := { path := some v1, session := none },
        aux_session_path := { e0 := some v1, e1 := some v2 },
        aux_session_cnt := 2 }) := by
    rw [h1, on_option_session]
    simp [ctx, MAX_AUX_SESSIONS, Arr2.set]
  have h3 : (on_option 'S' v3
      (on_option 'S' v2 (on_option 'S' v1 (ctx lib)).2).2).1 = false := by
    rw [h2, on_option_session]
    simp [MAX_AUX_SESSIONS]
  refine ⟨?_, ?_, ?_, ?_, h3, ?_, ?_⟩
  · rw [h1]
  · rw [h1]
  · rw [h2]
  · rw [h2]
  · intro opts
    have h := run_options_accept opts (ctx lib) (by simp [ctx, MAX_AUX_SESSIONS])
    rw [h]
    simp [ctx]
  · intro opts c0 hopts
    have h := run_options_sessions opts (ctx lib) c0 [] hopts rfl rfl rfl
      (by simp [MAX_AUX_SESSIONS])
    rw [List.nil_append] at h
    exact h.2.2.2

theorem session_option_accepted_twice_witness :
    (run_options [('S', "s1.ctx"), ('C', "platform"), ('S', "s2.ctx")]
      (ctx (sampleLib 0 1))).1 = true :=
  ((session_option_accepted_twice (sampleLib 0 1) "a" "b"
    "c").2.2.2.2.2.1 _).mpr (by decide)

/-! ## Stores to the auxiliary path array -/

/-- C16 fails on the code: the third session option stores its value at
index 2 of the two-element array `aux_session_path`, before the count is
compared with `MAX_AUX_SESSIONS` and the option is rejected. The store of a
session option is always at the current count. -/
theorem on_option_store_out_of_bounds :
    run_options_store_indices
      [('S', "s1.ctx"), ('S', "s2.ctx"), ('S', "s3.ctx")]
      (ctx (sampleLib 0 1)) = [0, 1, 2] ∧
    ¬ (2 < MAX_AUX_SESSIONS) ∧
    (run_options [('S', "s1.ctx"), ('S', "s2.ctx"), ('S', "s3.ctx")]
      (ctx (sampleLib 0 1))).1 = false ∧
    (∀ (v : String) (c : tpm_nvundefine_ctx),
      aux_session_path_store_index 'S' c = some c.aux_session_cnt ∧
      (on_option 'S' v c).2.aux_session_path =
        c.aux_session_path.set c.aux_session_cnt (some v)) := by
  refine ⟨by decide, by decide, by decide, ?_⟩
  intro v c
  refine ⟨rfl, ?_⟩
  rw [on_option_session]
  split_ifs <;> rfl

/-! ## The auxiliary count in a run -/

theorem process_inputs_cnt (lib : Lib) (c : tpm_nvundefine_ctx)
    (hist : List Call) :
    (process_inputs lib c hist).ctx.aux_session_cnt = c.aux_session_cnt ∨
    (c.has_policy_delete_set = true ∧
      (process_inputs lib c hist).ctx.aux_session_cnt =
        (c.aux_session_cnt + 255) % 256) := by
  unfold process_inputs
  simp only []
  split_ifs with h1 h2 h3 h4
  · exact Or.inl rfl
  · exact Or.inl rfl
  · exact Or.inl rfl
  · right
    rw [(process_inputs_sessions_keeps lib _ _).2.2.2.1]
    exact ⟨h2, rfl⟩
  · left
    rw [(process_inputs_sessions_keeps lib _ _).2.2.2.1]

theorem options_then_check (lib : Lib) (opts : List (Char × String))
    (argv : List String) (hist : List Call) (c0 c : tpm_nvundefine_ctx)
    (r1 : Run)
    (hopts : run_options opts (ctx lib) = (true, c0))
    (harg : (on_arg lib argv c0).2 = c)
    (hco : check_options lib c hist = r1) :
    (c.policy_session.path.isSome = true → 1 ≤ c.aux_session_cnt) ∧
    c.aux_session_cnt ≤ MAX_AUX_SESSIONS ∧
    r1.ctx.aux_session_cnt = c.aux_session_cnt ∧
    (r1.rc = tool_rc_success → r1.ctx.has_policy_delete_set = true →
      1 ≤ r1.ctx.aux_session_cnt) := by
  have hsh := run_options_sessions opts (ctx lib) c0 [] hopts rfl rfl rfl
    (by simp [MAX_AUX_SESSIONS])
  rw [List.nil_append] at hsh
  obtain ⟨hlen, hcnt0, -, hpol0⟩ := hsh
  have hcnt : c.aux_session_cnt = (session_paths opts).length := by
    rw [← harg]; exact hcnt0
  have hpol : c.policy_session.path = (session_paths opts)[0]? := by
    rw [← harg]; exact hpol0
  have hinv : c.policy_session.path.isSome = true → 1 ≤ c.aux_session_cnt := by
    intro hsome
    rw [hpol] at hsome
    rw [hcnt]
    cases hps : session_paths opts with
    | nil => rw [hps] at hsome; simp at hsome
    | cons a l => simp
  have hk := check_options_slots lib c hist
  rw [hco] at hk
  refine ⟨hinv, by rw [hcnt]; exact hlen, hk.1, ?_⟩
  intro h1 hpd
  have hrd := check_options_read_ok lib c hist (by rw [hco]; exact h1)
  have hf := check_options_flag lib c hist hrd
  have hrc := check_options_rc lib c hist hrd
  rw [hco] at hf hrc
  rw [h1, ← hf.1, hpd] at hrc
  rw [hk.1]
  apply hinv
  by_contra hn
  simp [hn] at hrc

/-- C17: for every context reached from the initial context by an accepted
option sequence, a set policy-session path implies an auxiliary count of at
least 1, and the count is at most `MAX_AUX_SESSIONS`. So whenever
`check_options` has succeeded with the policy-delete flag set, the count is
at least 1 when `process_inputs` decrements it, the 8-bit decrement is the
count minus one, and the count `process_inputs` leaves is never 255. -/
theorem aux_count_decrement_no_wrap (lib : Lib) (opts : List (Char × String))
    (argv : List String) (hist : List Call) (c0 c : tpm_nvundefine_ctx)
    (r1 r2 : Run)
    (hopts : run_options opts (ctx lib) = (true, c0))
    (harg : (on_arg lib argv c0).2 = c)
    (hco : check_options lib c hist = r1) (h1 : r1.rc = tool_rc_success)
    (hpi : process_inputs lib r1.ctx r1.trace = r2) :
    (c.policy_session.path.isSome = true → 1 ≤ c.aux_session_cnt) ∧
    c.aux_session_cnt ≤ MAX_AUX_SESSIONS ∧
    (r1.ctx.has_policy_delete_set = true →
      1 ≤ r1.ctx.aux_session_cnt ∧
      (r1.ctx.aux_session_cnt + 255) % 256 = r1.ctx.aux_session_cnt - 1) ∧
    (r2.ctx.aux_session_cnt = r1.ctx.aux_session_cnt ∨
      (r1.ctx.has_policy_delete_set = true ∧
        r2.ctx.aux_session_cnt = r1.ctx.aux_session_cnt - 1)) ∧
    r2.ctx.aux_session_cnt ≠ 255 := by
  obtain ⟨hinv, hle, hk, hge⟩ := options_then_check lib opts argv hist c0 c r1
    hopts harg hco
  have hle1 : r1.ctx.aux_session_cnt ≤ 2 := by
    rw [hk]
    simpa [MAX_AUX_SESSIONS] using hle
  have hdec : r1.ctx.has_policy_delete_set = true →
      1 ≤ r1.ctx.aux_session_cnt ∧
      (r1.ctx.aux_session_cnt + 255) % 256 = r1.ctx.aux_session_cnt - 1 := by
    intro hpd
    have := hge h1 hpd
    exact ⟨this, by omega⟩
  have hcases := process_inputs_cnt lib r1.ctx r1.trace
  rw [hpi] at hcases
  refine ⟨hinv, hle, hdec, ?_, ?_⟩
  · rcases hcases with h | ⟨hpd, h⟩
    · exact Or.inl h
    · exact Or.inr ⟨hpd, by rw [h, (hdec hpd).2]⟩
  · rcases hcases with h | ⟨hpd, h⟩
    · rw [h]; omega
    · rw [h, (hdec hpd).2]; omega

theorem aux_count_decrement_no_wrap_witness :
    (process_inputs (sampleLib 0x400 1)
      (check_options (sampleLib 0x400 1) (sample_ctx [('S', "p1")]) []).ctx
      (check_options (sampleLib 0x400 1) (sample_ctx [('S', "p1")])
        []).trace).ctx.aux_session_cnt ≠ 255 :=
  (aux_count_decrement_no_wrap (sampleLib 0x400 1) [('S', "p1")]
    ["0x1000001"] [] _ _ _ _ rfl rfl rfl (by decide) rfl).2.2.2.2

/-! ## The stages of a run -/

theorem onrun_cases (lib : Lib) (c : tpm_nvundefine_ctx) (hist : List Call) :
    ∃ r1 r2 r3 : Run, check_options lib c hist = r1 ∧
      process_inputs lib r1.ctx r1.trace = r2 ∧
      nv_undefine lib r2.ctx r2.trace = r3 ∧
      ((r1.rc ≠ tool_rc_success ∧ tpm2_tool_onrun lib c hist = r1) ∨
       (r1.rc = tool_rc_success ∧ r2.rc ≠ tool_rc_success ∧
          tpm2_tool_onrun lib c hist = r2) ∨
       (r1.rc = tool_rc_success ∧ r2.rc = tool_rc_success ∧
          r3.rc ≠ tool_rc_success ∧ tpm2_tool_onrun lib c hist = r3) ∨
       (r1.rc = tool_rc_success ∧ r2.rc = tool_rc_success ∧
          r3.rc = tool_rc_success ∧
          tpm2_tool_onrun lib c hist = process_output lib r3.ctx r3.trace)) := by
  refine ⟨_, _, _, rfl, rfl, rfl, ?_⟩
  unfold tpm2_tool_onrun
  simp only []
  by_cases h1 : (check_options lib c hist).rc = tool_rc_success
  · by_cases h2 : (process_inputs lib (check_options lib c hist).ctx
        (check_options lib c hist).trace).rc = tool_rc_success
    · by_cases h3 : (nv_undefine lib
          (process_inputs lib (check_options lib c hist).ctx
            (check_options lib c hist).trace).ctx
          (process_inputs lib (check_options lib c hist).ctx
            (check_options lib c hist).trace).trace).rc = tool_rc_success
      · right; right; right
        simp only [h1, h2, h3, ne_eq, not_true_eq_false, if_false, and_self]
      · right; right; left
        simp only [h1, h2, h3, ne_eq, not_true_eq_false, not_false_eq_true,
          if_false, if_true, and_self]
    · right; left
      simp only [h1, h2, ne_eq, not_true_eq_false, not_false_eq_true,
        if_false, if_true, and_self]
  · left
    simp only [h1, ne_eq, not_false_eq_true, if_true, and_self]

/-! ## The number of sessions of a run -/

theorem sessions_opened_append (a b : List Call) :
    sessions_opened (a ++ b) = sessions_opened a + sessions_opened b := by
  simp [sessions_opened]

theorem aux_setup_counts_append (a b : List Call) :
    aux_setup_counts (a ++ b) = aux_setup_counts a ++ aux_setup_counts b := by
  simp [aux_setup_counts]

theorem process_inputs_sessions_counts (lib : Lib) (c : tpm_nvundefine_ctx)
    (hist : List Call) :
    sessions_opened (process_inputs_sessions lib c hist).trace =
      sessions_opened hist + c.aux_session_cnt ∧
    aux_setup_counts (process_inputs_sessions lib c hist).trace =
      aux_setup_counts hist ++ [c.aux_session_cnt] := by
  unfold process_inputs_sessions
  by_cases hs : (lib.tpm2_util_aux_sessions_setup hist c.aux_session_cnt
      c.aux_session_path c.aux_session_handle c.aux_session).1 = tool_rc_success
  · simp only [hs, ne_eq, not_true_eq_false, if_false]
    simp [sessions_opened_append, aux_setup_counts_append, sessions_opened,
      aux_setup_counts, session_count]
  · simp only [ne_eq, hs, not_false_eq_true, if_true]
    simp [sessions_opened_append, aux_setup_counts_append, sessions_opened,
      aux_setup_counts, session_count]

theorem process_inputs_counts (lib : Lib) (c : tpm_nvundefine_ctx)
    (hist : List Call) :
    ∃ l, aux_setup_counts (process_inputs lib c hist).trace =
        aux_setup_counts hist ++ l ∧
      (l = [] ∨ (c.has_policy_delete_set = false ∧ l = [c.aux_session_cnt]) ∨
        (c.has_policy_delete_set = true ∧
          l = [(c.aux_session_cnt + 255) % 256])) ∧
      sessions_opened (process_inputs lib c hist).trace ≤
        sessions_opened hist + 1 +
          (if c.has_policy_delete_set then 1 else 0) + l.sum := by
  unfold process_inputs
  simp only []
  by_cases h2 : c.has_policy_delete_set = true
  · simp only [h2, if_true, Bool.true_and]
    split_ifs with h1 h3 h4
    · refine ⟨[], ?_, Or.inl rfl, ?_⟩
      · simp [aux_setup_counts_append, aux_setup_counts]
      · simp [sessions_opened_append, sessions_opened, session_count]
    · refine ⟨[], ?_, Or.inl rfl, ?_⟩
      · simp [aux_setup_counts_append, aux_setup_counts]
      · simp [sessions_opened_append, sessions_opened, session_count]
    · refine ⟨[], ?_, Or.inl rfl, ?_⟩
      · simp [aux_setup_counts_append, aux_setup_counts]
      · simp [sessions_opened_append, sessions_opened, session_count]
    · refine ⟨[(c.aux_session_cnt + 255) % 256], ?_,
        Or.inr (Or.inr ⟨trivial, rfl⟩), ?_⟩
      · rw [(process_inputs_sessions_counts lib _ _).2]
        simp [aux_setup_counts_append, aux_setup_counts]
      · rw [(process_inputs_sessions_counts lib _ _).1]
        simp [sessions_opened_append, sessions_opened, session_count]
  · have h2f : c.has_policy_delete_set = false := by simpa using h2
    simp only [h2f, Bool.false_eq_true, if_false]
    split_ifs with h1
    · refine ⟨[], ?_, Or.inl rfl, ?_⟩
      · simp [aux_setup_counts_append, aux_setup_counts]
      · simp [sessions_opened_append, sessions_opened, session_count]
    · refine ⟨[c.aux_session_cnt], ?_, Or.inr (Or.inl ⟨trivial, rfl⟩), ?_⟩
      · rw [(process_inputs_sessions_counts lib _ _).2]
        simp [aux_setup_counts_append, aux_setup_counts]
      · rw [(process_inputs_sessions_counts lib _ _).1]
        simp [sessions_opened_append, sessions_opened, session_count]

theorem nv_undefine_counts (lib : Lib) (c : tpm_nvundefine_ctx)
    (hist : List Call) :
    sessions_opened (nv_undefine lib c hist).trace = sessions_opened hist ∧
    aux_setup_counts (nv_undefine lib c hist).trace =
      aux_setup_counts hist := by
  rw [nv_undefine_trace, sessions_opened_append, aux_setup_counts_append]
  split_ifs <;> simp [sessions_opened, aux_setup_counts, session_count]

theorem check_options_counts (lib : Lib) (c : tpm_nvundefine_ctx)
    (hist : List Call) :
    sessions_opened (check_options lib c hist).trace = sessions_opened hist ∧
    aux_setup_counts (check_options lib c hist).trace =
      aux_setup_counts hist := by
  rw [check_options_trace, sessions_opened_append, aux_setup_counts_append]
  simp [sessions_opened, aux_setup_counts, session_count]

theorem process_output_counts (lib : Lib) (c : tpm_nvundefine_ctx)
    (hist : List Call) :
    sessions_opened (process_output lib c hist).trace = sessions_opened hist ∧
    aux_setup_counts (process_output lib c hist).trace =
      aux_setup_counts hist := by
  unfold process_output
  cases hcp : c.cp_hash_path <;> cases hrp : c.rp_hash_path <;>
    simp only [] <;> split_ifs <;>
    simp [sessions_opened_append, aux_setup_counts_append, sessions_opened,
      aux_setup_counts, session_count]

theorem onrun_flag (lib : Lib) (c : tpm_nvundefine_ctx) (hist : List Call)
    (h1 : (check_options lib c hist).rc = tool_rc_success) :
    (tpm2_tool_onrun lib c hist).ctx.has_policy_delete_set =
      (check_options lib c hist).ctx.has_policy_delete_set := by
  obtain ⟨r1, r2, r3, hco, hpi, hnv, hc⟩ := onrun_cases lib c hist
  rw [hco] at h1 ⊢
  have hk2 := (process_inputs_keeps lib r1.ctx r1.trace).1
  rw [hpi] at hk2
  have hk3 := (nv_undefine_ctx lib r2.ctx r2.trace).2.2.2
  rw [hnv] at hk3
  rcases hc with ⟨hne, -⟩ | ⟨-, -, he⟩ | ⟨-, -, -, he⟩ | ⟨-, -, -, he⟩
  · exact absurd h1 hne
  · rw [he, hk2]
  · rw [he, hk3, hk2]
  · rw [he, process_output_ctx, hk3, hk2]

/-- C13: for every context reached from the initial context by an accepted
option sequence and for every library behaviour (so every attribute
bitmask), the calls of a run open at most `MAX_SESSIONS` = 3 sessions: one
for the hierarchy object, one for the policy session when it is restored, and
the count handed to the auxiliary session setup. That setup is called at most
once, with a count of at most 2, and of at most 1 when the policy-delete flag
is set. -/
theorem sessions_at_most_three (lib : Lib) (opts : List (Char × String))
    (argv : List String) (hist : List Call) (c0 c : tpm_nvundefine_ctx)
    (hopts : run_options opts (ctx lib) = (true, c0))
    (harg : (on_arg lib argv c0).2 = c) :
    sessions_opened (tpm2_tool_onrun lib c hist).trace ≤
      sessions_opened hist + MAX_SESSIONS ∧
    ∃ l, aux_setup_counts (tpm2_tool_onrun lib c hist).trace =
        aux_setup_counts hist ++ l ∧
      l.length ≤ 1 ∧
      ∀ n ∈ l, n ≤ MAX_AUX_SESSIONS ∧
        ((tpm2_tool_onrun lib c hist).ctx.has_policy_delete_set = true →
          n ≤ 1) := by
  obtain ⟨r1, r2, r3, hco, hpi, hnv, hc⟩ := onrun_cases lib c hist
  obtain ⟨-, hle, hk, hge⟩ := options_then_check lib opts argv hist c0 c r1
    hopts harg hco
  simp only [MAX_AUX_SESSIONS, MAX_SESSIONS] at hle ⊢
  have hco_c := check_options_counts lib c hist
  rw [hco] at hco_c
  have hnv_c := nv_undefine_counts lib r2.ctx r2.trace
  rw [hnv] at hnv_c
  have hpo_c := process_output_counts lib r3.ctx r3.trace
  obtain ⟨l, hl, hshape, hsum⟩ := process_inputs_counts lib r1.ctx r1.trace
  rw [hpi] at hl hsum
  rw [hco_c.1] at hsum
  rw [hco_c.2] at hl
  have hfl : r1.rc = tool_rc_success →
      (tpm2_tool_onrun lib c hist).ctx.has_policy_delete_set =
        r1.ctx.has_policy_delete_set := by
    intro h1
    have := onrun_flag lib c hist (by rw [hco]; exact h1)
    rw [hco] at this
    exact this
  have hbound : r1.rc = tool_rc_success →
      sessions_opened hist + 1 +
        (if r1.ctx.has_policy_delete_set = true then 1 else 0) + l.sum ≤
        sessions_opened hist + 3 ∧
      l.length ≤ 1 ∧
      ∀ n ∈ l, n ≤ 2 ∧ (r1.ctx.has_policy_delete_set = true → n ≤ 1) := by
    intro h1
    rcases hshape with h | ⟨hpd, h⟩ | ⟨hpd, h⟩
    · subst h
      refine ⟨?_, by simp, by simp⟩
      split_ifs <;> simp
    · subst h
      simp [hpd]
      omega
    · subst h
      have := hge h1 hpd
      simp [hpd]
      omega
  rcases hc with ⟨hne, he⟩ | ⟨h1, -, he⟩ | ⟨h1, -, -, he⟩ | ⟨h1, -, -, he⟩
  · rw [he, hco_c.1, hco_c.2]
    exact ⟨by omega, [], by simp, by simp, by simp⟩
  · obtain ⟨hb1, hb2, hb3⟩ := hbound h1
    rw [hfl h1, he]
    exact ⟨by omega, l, hl, hb2, hb3⟩
  · obtain ⟨hb1, hb2, hb3⟩ := hbound h1
    rw [hfl h1, he, hnv_c.1, hnv_c.2]
    exact ⟨by omega, l, hl, hb2, hb3⟩
  · obtain ⟨hb1, hb2, hb3⟩ := hbound h1
    rw [hfl h1, he, hpo_c.1, hpo_c.2, hnv_c.1, hnv_c.2]
    exact ⟨by omega, l, hl, hb2, hb3⟩

theorem sessions_at_most_three_witness :
    sessions_opened (tpm2_tool_onrun (sampleLib 0x400 1)
      (sample_ctx [('S', "p1"), ('S', "p2")]) []).trace ≤
      sessions_opened [] + MAX_SESSIONS :=
  (sessions_at_most_three (sampleLib 0x400 1) [('S', "p1"), ('S', "p2")]
    ["0x1000001"] [] _ _ rfl rfl).1

/-! ## Digest writes -/

theorem digest_writes_append (a b : List Call) :
    digest_writes (a ++ b) = digest_writes a ++ digest_writes b := by
  simp [digest_writes]

theorem check_options_digest_writes (lib : Lib) (c : tpm_nvundefine_ctx)
    (hist : List Call) :
    digest_writes (check_options lib c hist).trace = digest_writes hist := by
  rw [check_options_trace, digest_writes_append]
  simp [digest_writes, is_digest_write]

theorem process_inputs_sessions_digest_writes (lib : Lib)
    (c : tpm_nvundefine_ctx) (hist : List Call) :
    digest_writes (process_inputs_sessions lib c hist).trace =
      digest_writes hist := by
  unfold process_inputs_sessions
  simp only []
  split_ifs <;> simp [digest_writes, List.filter_append, is_digest_write]

theorem process_inputs_digest_writes (lib : Lib) (c : tpm_nvundefine_ctx)
    (hist : List Call) :
    digest_writes (process_inputs lib c hist).trace = digest_writes hist := by
  unfold process_inputs
  simp only []
  split_ifs <;> simp only [process_inputs_sessions_digest_writes] <;>
    simp [digest_writes, List.filter_append, is_digest_write]

theorem nv_undefine_digest_writes (lib : Lib) (c : tpm_nvundefine_ctx)
    (hist : List Call) :
    digest_writes (nv_undefine lib c hist).trace = digest_writes hist := by
  rw [nv_undefine_trace, digest_writes_append]
  split_ifs <;> simp [digest_writes, is_digest_write]

/-- C12, as stated, fails: with both digest paths given and the write of the
request digest failing, the standard undefine library call has already been
made when the write is attempted. -/
theorem cp_write_failure_counterexample :
    (tpm2_tool_onrun (writeFailLib 0 1)
      (sample_ctx [(Char.ofNat 0, "cp.bin"), (Char.ofNat 1, "rp.bin")])
      []).trace.getLast? =
      some (Call.save_digest { size := 0, buffer := [] } "cp.bin" false) ∧
    undefine_calls (tpm2_tool_onrun (writeFailLib 0 1)
      (sample_ctx [(Char.ofNat 0, "cp.bin"), (Char.ofNat 1, "rp.bin")])
      []).trace.dropLast =
      [Call.nvundefine 0x1000001 11 0xfff 0xfff tool_rc_success] := by
  decide

/-- C12, amended: a run writes a digest only after `check_options`,
`process_inputs` and `nv_undefine` have all succeeded. For every run in which
the write of the request digest fails, the run returns
`tool_rc_general_error` right after that write and writes nothing else, for
every combination of the digest paths; the one undefine library call of the
run has been made, and has succeeded, before the write. -/
theorem onrun_cp_write_failure (lib : Lib) (c : tpm_nvundefine_ctx)
    (hist : List Call) (r1 r2 r3 : Run) (p : String)
    (hco : check_options lib c hist = r1) (h1 : r1.rc = tool_rc_success)
    (hpi : process_inputs lib r1.ctx r1.trace = r2)
    (h2 : r2.rc = tool_rc_success)
    (hnv : nv_undefine lib r2.ctx r2.trace = r3)
    (h3 : r3.rc = tool_rc_success)
    (hcp : r3.ctx.cp_hash_path = some p)
    (hfail : lib.files_save_digest r3.trace r3.ctx.cp_hash p = false) :
    (tpm2_tool_onrun lib c hist).rc = tool_rc_general_error ∧
    (tpm2_tool_onrun lib c hist).trace = r3.trace ++
      [Call.save_digest r3.ctx.cp_hash p false] ∧
    digest_writes (tpm2_tool_onrun lib c hist).trace = digest_writes hist ++
      [Call.save_digest r3.ctx.cp_hash p false] ∧
    (∃ call, is_undefine_call call = true ∧ call_failed call = false ∧
      r3.trace = r2.trace ++ [call] ∧
      undefine_calls (tpm2_tool_onrun lib c hist).trace =
        undefine_calls hist ++ [call]) ∧
    (∀ (c1 : tpm_nvundefine_ctx) (hist1 : List Call),
      digest_writes (tpm2_tool_onrun lib c1 hist1).trace ≠
        digest_writes hist1 →
      (check_options lib c1 hist1).rc = tool_rc_success ∧
      (process_inputs lib (check_options lib c1 hist1).ctx
        (check_options lib c1 hist1).trace).rc = tool_rc_success ∧
      (nv_undefine lib
        (process_inputs lib (check_options lib c1 hist1).ctx
          (check_options lib c1 hist1).trace).ctx
        (process_inputs lib (check_options lib c1 hist1).ctx
          (check_options lib c1 hist1).trace).trace).rc =
        tool_rc_success) := by
  have hrun := onrun_stages lib c hist r1 r2 r3 hco h1 hpi h2 hnv
  simp only [h3, ne_eq, not_true_eq_false, if_false] at hrun
  have hpo : process_output lib r3.ctx r3.trace =
      { rc := tool_rc_general_error, ctx := r3.ctx,
        trace := r3.trace ++ [Call.save_digest r3.ctx.cp_hash p false] } := by
    unfold process_output
    simp [hcp, hfail]
  have hd3 : digest_writes r3.trace = digest_writes hist := by
    rw [← hnv, nv_undefine_digest_writes, ← hpi, process_inputs_digest_writes,
      ← hco, check_options_digest_writes]
  have htr := nv_undefine_trace lib r2.ctx r2.trace
  rw [hnv] at htr
  have hu2 : undefine_calls r2.trace = undefine_calls hist := by
    rw [← hpi, process_inputs_undefine_calls, ← hco,
      check_options_undefine_calls]
  refine ⟨by rw [hrun, hpo], by rw [hrun, hpo], ?_, ?_, ?_⟩
  · rw [hrun, hpo]
    simp only []
    rw [digest_writes_append, hd3]
    simp [digest_writes, is_digest_write]
  · refine ⟨_, ?_, ?_, htr, ?_⟩
    · split_ifs <;> rfl
    · split_ifs <;> simp [call_failed, h3]
    · rw [hrun, hpo]
      simp only []
      rw [htr]
      split_ifs <;>
        simp [undefine_calls, List.filter_append, is_undefine_call] <;>
        exact hu2
  · intro c1 hist1 hne
    obtain ⟨q1, q2, q3, hq1, hq2, hq3, hc⟩ := onrun_cases lib c1 hist1
    subst hq1
    subst hq2
    subst hq3
    rcases hc with ⟨-, he⟩ | ⟨-, -, he⟩ | ⟨-, -, -, he⟩ | ⟨g1, g2, g3, -⟩
    · rw [he, check_options_digest_writes] at hne
      exact absurd rfl hne
    · rw [he, process_inputs_digest_writes, check_options_digest_writes] at hne
      exact absurd rfl hne
    · rw [he, nv_undefine_digest_writes, process_inputs_digest_writes,
        check_options_digest_writes] at hne
      exact absurd rfl hne
    · exact ⟨g1, g2, g3⟩

theorem onrun_cp_write_failure_witness :
    (tpm2_tool_onrun (writeFailLib 0 1)
      (sample_ctx [(Char.ofNat 0, "cp.bin"), (Char.ofNat 1, "rp.bin")])
      []).rc = tool_rc_general_error ∧
    digest_writes (tpm2_tool_onrun (writeFailLib 0 1)
      (sample_ctx [(Char.ofNat 0, "cp.bin"), (Char.ofNat 1, "rp.bin")])
      []).trace = digest_writes [] ++
      [Call.save_digest { size := 0, buffer := [] } "cp.bin" false] :=
  have h := onrun_cp_write_failure (writeFailLib 0 1)
    (sample_ctx [(Char.ofNat 0, "cp.bin"), (Char.ofNat 1, "rp.bin")]) []
    _ _ _ "cp.bin" rfl (by decide) rfl (by decide) rfl (by decide)
    (by decide) (by decide)
  ⟨h.1, h.2.2.1⟩

/-! ## The privileged scenario -/

theorem on_option_keeps (k : Char) (v : String) (c : tpm_nvundefine_ctx) :
    (on_option k v c).2.aux_session_handle = c.aux_session_handle ∧
    (on_option k v c).2.policy_session.session = c.policy_session.session ∧
    (k ≠ Char.ofNat 0 →
      (on_option k v c).2.cp_hash_path = c.cp_hash_path) ∧
    (k ≠ Char.ofNat 1 →
      (on_option k v c).2.rp_hash_path = c.rp_hash_path) := by
  unfold on_option
  simp only []
  split_ifs with hC hP hS h0 hlt h00 h01 <;> simp_all

theorem run_options_keeps (opts : List (Char × String)) :
    ∀ c c1 : tpm_nvundefine_ctx, run_options opts c = (true, c1) →
      c1.aux_session_handle = c.aux_session_handle ∧
      ((∀ kv ∈ opts, kv.1 ≠ Char.ofNat 0) →
        c1.cp_hash_path = c.cp_hash_path) ∧
      ((∀ kv ∈ opts, kv.1 ≠ Char.ofNat 1) →
        c1.rp_hash_path = c.rp_hash_path) := by
  induction opts with
  | nil =>
    intro c c1 h
    simp only [run_options, Prod.mk.injEq, true_and] at h
    subst h
    exact ⟨rfl, fun _ => rfl, fun _ => rfl⟩
  | cons kv rest ih =>
    intro c c1 h
    obtain ⟨k, v⟩ := kv
    simp only [run_options] at h
    by_cases hacc : (on_option k v c).1 = true
    · rw [if_pos hacc] at h
      obtain ⟨i1, i2, i3⟩ := ih _ _ h
      obtain ⟨o1, -, o3, o4⟩ := on_option_keeps k v c
      refine ⟨by rw [i1, o1], ?_, ?_⟩
      · intro hno
        rw [i2 (fun kv hkv => hno kv (List.mem_cons_of_mem _ hkv)),
          o3 (hno (k, v) (List.mem_cons_self _ _))]
      · intro hno
        rw [i3 (fun kv hkv => hno kv (List.mem_cons_of_mem _ hkv)),
          o4 (hno (k, v) (List.mem_cons_self _ _))]
    · rw [if_neg hacc] at h
      simp at h

theorem check_options_keeps (lib : Lib) (c : tpm_nvundefine_ctx)
    (hist : List Call) :
    (check_options lib c hist).ctx.aux_session_handle = c.aux_session_handle ∧
    (check_options lib c hist).ctx.aux_session = c.aux_session ∧
    (check_options lib c hist).ctx.cp_hash_path = c.cp_hash_path ∧
    (check_options lib c hist).ctx.rp_hash_path = c.rp_hash_path := by
  unfold check_options
  simp only []
  split_ifs <;> exact ⟨rfl, rfl, rfl, rfl⟩

theorem process_inputs_sessions_ok (lib : Lib) (c : tpm_nvundefine_ctx)
    (hist : List Call) (handles : Arr2 Nat)
    (sess : Arr2 (Option tpm2_session))
    (hs : lib.tpm2_util_aux_sessions_setup hist c.aux_session_cnt
      c.aux_session_path c.aux_session_handle c.aux_session =
      (tool_rc_success, handles, sess)) :
    (process_inputs_sessions lib c hist).rc = tool_rc_success ∧
    (process_inputs_sessions lib c hist).ctx.aux_session_handle = handles ∧
    (process_inputs_sessions lib c hist).ctx.aux_session = sess := by
  unfold process_inputs_sessions
  simp [hs]

/-- C15: scenario B. After an accepted option sequence with exactly one
session path and no digest path, when the attributes read have the
policy-delete bit set, the session restored from that path is of policy type
and every library call succeeds (the auxiliary setup, called with count 0 and
no path, leaving the handle array as it is), the run returns success; its one
undefine library call is the special undefine, made with the restored session
as the policy session and `ESYS_TR_NONE` as the auxiliary handle; the
standard undefine is not called and no digest is written. -/
theorem privileged_scenario (lib : Lib) (opts : List (Char × String))
    (argv : List String) (hist : List Call) (c0 c : tpm_nvundefine_ctx)
    (r1 r2 r3 : Run) (p : String) (obj : tpm2_loaded_object)
    (s : Option tpm2_session) (sess : Arr2 (Option tpm2_session))
    (hopts : run_options opts (ctx lib) = (true, c0))
    (harg : (on_arg lib argv c0).2 = c)
    (hsp : session_paths opts = [p])
    (hnocp : ∀ kv ∈ opts, kv.1 ≠ Char.ofNat 0)
    (hnorp : ∀ kv ∈ opts, kv.1 ≠ Char.ofNat 1)
    (hco : check_options lib c hist = r1)
    (hrd : (lib.tpm2_util_nv_read_public hist c.nv_index).1 = tool_rc_success)
    (hbit : (lib.tpm2_util_nv_read_public hist c.nv_index).2 &&&
      lib.TPMA_NV_POLICY_DELETE ≠ 0)
    (hload : lib.tpm2_util_object_load_auth r1.trace
      r1.ctx.auth_hierarchy.ctx_path r1.ctx.auth_hierarchy.auth_str
      r1.ctx.auth_hierarchy.object = (tool_rc_success, obj))
    (hrest : lib.tpm2_session_restore
      (r1.trace ++ [Call.object_load_auth r1.ctx.auth_hierarchy.ctx_path
        r1.ctx.auth_hierarchy.auth_str tool_rc_success])
      (some p) r1.ctx.policy_session.session = (tool_rc_success, s))
    (hty : lib.tpm2_session_get_type s = lib.TPM2_SE_POLICY)
    (hsetup : lib.tpm2_util_aux_sessions_setup
      (r1.trace ++ [Call.object_load_auth r1.ctx.auth_hierarchy.ctx_path
          r1.ctx.auth_hierarchy.auth_str tool_rc_success,
        Call.session_restore (some p) tool_rc_success s])
      0 { e0 := none, e1 := none } r1.ctx.aux_session_handle
      r1.ctx.aux_session = (tool_rc_success, r1.ctx.aux_session_handle, sess))
    (hpi : process_inputs lib r1.ctx r1.trace = r2)
    (hnv : nv_undefine lib r2.ctx r2.trace = r3)
    (h3 : r3.rc = tool_rc_success) :
    (tpm2_tool_onrun lib c hist).rc = tool_rc_success ∧
    undefine_calls (tpm2_tool_onrun lib c hist).trace = undefine_calls hist ++
      [Call.nvundefinespecial c.nv_index s r2.ctx.parameter_hash_algorithm
        lib.ESYS_TR_NONE tool_rc_success] ∧
    aux_setup_counts (tpm2_tool_onrun lib c hist).trace =
      aux_setup_counts hist ++ [0] ∧
    digest_writes (tpm2_tool_onrun lib c hist).trace = digest_writes hist := by
  -- the context after the options
  have hsh := run_options_sessions opts (ctx lib) c0 [] hopts rfl rfl rfl
    (by simp [MAX_AUX_SESSIONS])
  rw [List.nil_append, hsp] at hsh
  obtain ⟨-, hcnt0, hpaths0, hpol0⟩ := hsh
  obtain ⟨hh0, hcp0, hrp0⟩ := run_options_keeps opts (ctx lib) c0 hopts
  have hcp0 := hcp0 hnocp
  have hrp0 := hrp0 hnorp
  -- the context after check_options
  obtain ⟨hflag, hidx, hpol1, hcnt1, hpaths1⟩ := check_options_flag lib c hist hrd
  obtain ⟨hh1, -, hcp1, hrp1⟩ := check_options_keeps lib c hist
  rw [hco] at hflag hidx hpol1 hcnt1 hpaths1 hh1 hcp1 hrp1
  have hpd : r1.ctx.has_policy_delete_set = true := by
    rw [hflag]; simpa using hbit
  have hpol : r1.ctx.policy_session.path = some p := by
    rw [hpol1, ← harg]; exact hpol0
  have hcnt : r1.ctx.aux_session_cnt = 1 := by
    rw [hcnt1, ← harg]; exact hcnt0
  have hpaths : r1.ctx.aux_session_path = { e0 := some p, e1 := none } := by
    rw [hpaths1, ← harg]; exact hpaths0
  have hhandle : r1.ctx.aux_session_handle =
      { e0 := lib.ESYS_TR_NONE, e1 := lib.ESYS_TR_NONE } := by
    rw [hh1, ← harg]; exact hh0
  have hcp : r1.ctx.cp_hash_path = none := by
    rw [hcp1, ← harg]; exact hcp0
  have hrp : r1.ctx.rp_hash_path = none := by
    rw [hrp1, ← harg]; exact hrp0
  have h1 : r1.rc = tool_rc_success := by
    rw [← hco, check_options_rc lib c hist hrd]
    have : c.policy_session.path = some p := by rw [← hpol1]; exact hpol
    simp [this]
  -- process_inputs
  rw [← hpol] at hrest hsetup
  have hp := process_inputs_privileged lib r1.ctx r1.trace obj s hload hpd
    hrest hty
  rw [hpi] at hp
  have hshift : (r1.ctx.aux_session_path.set 0
      (r1.ctx.aux_session_path.get 1 none)).set 1 none =
      { e0 := none, e1 := none } := by
    rw [hpaths]; simp [Arr2.set, Arr2.get]
  have hzero : (r1.ctx.aux_session_cnt + 255) % 256 = 0 := by rw [hcnt]
  rw [hshift, hzero] at hp
  have hok := process_inputs_sessions_ok lib
    { r1.ctx with
      auth_hierarchy := { r1.ctx.auth_hierarchy with object := obj },
      policy_session := { r1.ctx.policy_session with session := s },
      aux_session_cnt := 0,
      aux_session_path := { e0 := none, e1 := none } }
    (r1.trace ++ [Call.object_load_auth r1.ctx.auth_hierarchy.ctx_path
        r1.ctx.auth_hierarchy.auth_str tool_rc_success,
      Call.session_restore r1.ctx.policy_session.path tool_rc_success s])
    r1.ctx.aux_session_handle sess hsetup
  have hkeep := process_inputs_sessions_keeps lib
    { r1.ctx with
      auth_hierarchy := { r1.ctx.auth_hierarchy with object := obj },
      policy_session := { r1.ctx.policy_session with session := s },
      aux_session_cnt := 0,
      aux_session_path := { e0 := none, e1 := none } }
    (r1.trace ++ [Call.object_load_auth r1.ctx.auth_hierarchy.ctx_path
        r1.ctx.auth_hierarchy.auth_str tool_rc_success,
      Call.session_restore r1.ctx.policy_session.path tool_rc_success s])
  have hcounts := process_inputs_sessions_counts lib
    { r1.ctx with
      auth_hierarchy := { r1.ctx.auth_hierarchy with object := obj },
      policy_session := { r1.ctx.policy_session with session := s },
      aux_session_cnt := 0,
      aux_session_path := { e0 := none, e1 := none } }
    (r1.trace ++ [Call.object_load_auth r1.ctx.auth_hierarchy.ctx_path
        r1.ctx.auth_hierarchy.auth_str tool_rc_success,
      Call.session_restore r1.ctx.policy_session.path tool_rc_success s])
  rw [← hp] at hok hkeep hcounts
  obtain ⟨h2, hh2, -⟩ := hok
  obtain ⟨hpd2, hidx2, hpol2, -, -, -⟩ := hkeep
  simp only [] at hpd2 hidx2 hpol2 hcounts
  have hcpaths := process_inputs_success lib r1.ctx r1.trace
    (by rw [hpi]; exact h2)
  obtain ⟨q, hq, hqeq, -, hqcp, hqrp⟩ := hcpaths
  have hfl := process_inputs_sessions_flag lib q hq
    (by rw [← hqeq, hpi]; exact h2)
  rw [← hqeq, hpi] at hfl
  have hcp2 : r2.ctx.cp_hash_path = none := hfl.2.1 (by rw [hqcp]; exact hcp)
  have hrp2 : r2.ctx.rp_hash_path = none := hfl.2.2 (by rw [hqrp]; exact hrp)
  -- nv_undefine and process_output
  have hrun := onrun_stages lib c hist r1 r2 r3 hco h1 hpi h2 hnv
  simp only [h3, ne_eq, not_true_eq_false, if_false] at hrun
  obtain ⟨hcp3, hrp3, -, -⟩ := nv_undefine_ctx lib r2.ctx r2.trace
  rw [hnv] at hcp3 hrp3
  have hpo : process_output lib r3.ctx r3.trace =
      { rc := tool_rc_success, ctx := r3.ctx, trace := r3.trace } := by
    unfold process_output
    rw [hcp3, hrp3, hcp2, hrp2]
    simp only []
    split_ifs <;> first | rfl | simp_all
  have htr := nv_undefine_trace lib r2.ctx r2.trace
  rw [hnv, hpd2, hpd, if_pos rfl, h3, hidx2, hidx, hpol2, hh2, hhandle] at htr
  simp only [Arr2.get, if_true] at htr
  refine ⟨by rw [hrun, hpo], ?_, ?_, ?_⟩
  · rw [hrun, hpo]
    simp only []
    rw [htr, undefine_calls_snoc r2.trace
      (Call.nvundefinespecial c.nv_index s r2.ctx.parameter_hash_algorithm
        lib.ESYS_TR_NONE tool_rc_success) rfl,
      ← hpi, process_inputs_undefine_calls, ← hco,
      check_options_undefine_calls]
  · rw [hrun, hpo]
    simp only []
    rw [← hnv, (nv_undefine_counts lib r2.ctx r2.trace).2, hcounts.2,
      aux_setup_counts_append, ← hco, (check_options_counts lib c hist).2]
    simp [aux_setup_counts]
  · rw [hrun, hpo]
    simp only []
    rw [← hnv, nv_undefine_digest_writes, ← hpi, process_inputs_digest_writes,
      ← hco, check_options_digest_writes]

theorem privileged_scenario_witness :
    (tpm2_tool_onrun (sampleLib 0x400 1) (sample_ctx [('S', "p1")]) []).rc =
      tool_rc_success ∧
    undefine_calls (tpm2_tool_onrun (sampleLib 0x400 1)
      (sample_ctx [('S', "p1")]) []).trace = undefine_calls [] ++
      [Call.nvundefinespecial 0x1000001 (some 11) 11 0xfff tool_rc_success] :=
  have h := privileged_scenario (sampleLib 0x400 1) [('S', "p1")]
    ["0x1000001"] [] _ _ _ _ _ "p1" _ (some 11) _ rfl rfl (by decide)
    (by decide) (by decide) rfl (by decide) (by decide) rfl rfl (by decide)
    rfl rfl rfl (by decide)
  ⟨h.1, h.2.1⟩

/-! ## The order of the stages -/

theorem stage_ordered_append (lo mid mid1 hi : Nat) (a b : List Call)
    (ha : stage_ordered lo mid a) (hok : ∀ e ∈ a, call_failed e = false)
    (hb : stage_ordered mid1 hi b) (hm : mid ≤ mid1) (hlo : lo ≤ mid1)
    (hhi : mid ≤ hi) :
    stage_ordered lo hi (a ++ b) := by
  obtain ⟨ha1, ha2, -⟩ := ha
  obtain ⟨hb1, hb2, hb3⟩ := hb
  refine ⟨?_, ?_, ?_⟩
  · rw [List.map_append, List.pairwise_append]
    refine ⟨ha1, hb1, ?_⟩
    intro x hx y hy
    obtain ⟨e, he, rfl⟩ := List.mem_map.mp hx
    obtain ⟨f, hf, rfl⟩ := List.mem_map.mp hy
    have := (ha2 e he).2
    have := (hb2 f hf).1
    omega
  · intro e he
    rcases List.mem_append.mp he with h | h
    · have := ha2 e h
      omega
    · have := hb2 e h
      omega
  · intro e he
    by_cases hbn : b = []
    · subst hbn
      rw [List.append_nil] at he
      exact hok e (List.mem_of_mem_dropLast he)
    · rw [List.dropLast_append_of_ne_nil a hbn] at he
      rcases List.mem_append.mp he with h | h
      · exact hok e h
      · exact hb3 e h

theorem process_inputs_sessions_stages (lib : Lib) (c : tpm_nvundefine_ctx)
    (hist : List Call) :
    ∃ ext, (process_inputs_sessions lib c hist).trace = hist ++ ext ∧
      stage_ordered 1 2 ext ∧ (∃ e ∈ ext, stage e = 1) ∧
      ((process_inputs_sessions lib c hist).rc = tool_rc_success →
        (∀ e ∈ ext, call_failed e = false) ∧ ∃ e ∈ ext, stage e = 2) ∧
      ((∃ e ∈ ext, stage e = 2) →
        (process_inputs_sessions lib c hist).rc = tool_rc_success) := by
  unfold process_inputs_sessions
  by_cases hs : (lib.tpm2_util_aux_sessions_setup hist c.aux_session_cnt
      c.aux_session_path c.aux_session_handle c.aux_session).1 = tool_rc_success
  · simp only [hs, ne_eq, not_true_eq_false, if_false]
    refine ⟨_, by rw [List.append_assoc], ?_, ?_, ?_, ?_⟩
    · simp [stage_ordered, stage, call_failed]
    · simp [stage]
    · intro _
      simp [stage, call_failed]
    · intro _
      trivial
  · simp only [ne_eq, hs, not_false_eq_true, if_true]
    refine ⟨_, rfl, ?_, ?_, ?_, ?_⟩
    · simp [stage_ordered, stage]
    · simp [stage]
    · intro h
      exact False.elim h
    · intro h
      simp [stage] at h

theorem stages_prepend_one (hist : List Call) (e0 : Call) (tr : List Call)
    (rc : tool_rc) (h0 : stage e0 = 1) (hok : call_failed e0 = false)
    (h : ∃ ext, tr = (hist ++ [e0]) ++ ext ∧ stage_ordered 1 2 ext ∧
      (∃ e ∈ ext, stage e = 1) ∧
      (rc = tool_rc_success →
        (∀ e ∈ ext, call_failed e = false) ∧ ∃ e ∈ ext, stage e = 2) ∧
      ((∃ e ∈ ext, stage e = 2) → rc = tool_rc_success)) :
    ∃ ext, tr = hist ++ ext ∧ stage_ordered 1 2 ext ∧
      (∃ e ∈ ext, stage e = 1) ∧
      (rc = tool_rc_success →
        (∀ e ∈ ext, call_failed e = false) ∧ ∃ e ∈ ext, stage e = 2) ∧
      ((∃ e ∈ ext, stage e = 2) → rc = tool_rc_success) := by
  obtain ⟨ext, htr, hord, hone, hsucc, hconv⟩ := h
  have hpre : ∀ e ∈ [e0], call_failed e = false := by
    intro e he
    rw [List.mem_singleton] at he
    rw [he]
    exact hok
  refine ⟨[e0] ++ ext, by rw [htr, List.append_assoc], ?_, ?_, ?_, ?_⟩
  · refine stage_ordered_append 1 1 1 2 [e0] ext ?_ hpre hord (le_refl _)
      (le_refl _) (by omega)
    refine ⟨by simp, by simp [h0], by simp⟩
  · obtain ⟨e, he, hst⟩ := hone
    exact ⟨e, List.mem_append_right _ he, hst⟩
  · intro hs
    obtain ⟨hnf, e, he, hst⟩ := hsucc hs
    refine ⟨?_, e, List.mem_append_right _ he, hst⟩
    intro x hx
    rcases List.mem_append.mp hx with hx | hx
    · exact hpre x hx
    · exact hnf x hx
  · rintro ⟨e, he, hst⟩
    rcases List.mem_append.mp he with hx | hx
    · rw [List.mem_singleton] at hx
      rw [hx, h0] at hst
      omega
    · exact hconv ⟨e, hx, hst⟩

theorem process_inputs_stages (lib : Lib) (c : tpm_nvundefine_ctx)
    (hist : List Call) :
    ∃ ext, (process_inputs lib c hist).trace = hist ++ ext ∧
      stage_ordered 1 2 ext ∧ (∃ e ∈ ext, stage e = 1) ∧
      ((process_inputs lib c hist).rc = tool_rc_success →
        (∀ e ∈ ext, call_failed e = false) ∧ ∃ e ∈ ext, stage e = 2) ∧
      ((∃ e ∈ ext, stage e = 2) →
        (process_inputs lib c hist).rc = tool_rc_success) := by
  unfold process_inputs
  simp only []
  split_ifs with h1 h2 h3 h4
  · refine ⟨_, rfl, ?_, ?_, ?_, ?_⟩
    · simp [stage_ordered, stage]
    · simp [stage]
    · intro h
      exact absurd h h1
    · intro h
      simp [stage] at h
  · have hl : (lib.tpm2_util_object_load_auth hist c.auth_hierarchy.ctx_path
        c.auth_hierarchy.auth_str c.auth_hierarchy.object).1 =
        tool_rc_success := by simpa using h1
    refine ⟨_, by rw [List.append_assoc], ?_, ?_, ?_, ?_⟩
    · simp [stage_ordered, stage, call_failed, hl]
    · simp [stage]
    · intro h
      exact absurd h h3
    · intro h
      simp [stage] at h
  · have hl : (lib.tpm2_util_object_load_auth hist c.auth_hierarchy.ctx_path
        c.auth_hierarchy.auth_str c.auth_hierarchy.object).1 =
        tool_rc_success := by simpa using h1
    refine ⟨_, by rw [List.append_assoc], ?_, ?_, ?_, ?_⟩
    · simp [stage_ordered, stage, call_failed, hl]
    · simp [stage]
    · intro h
      simp at h
    · intro h
      simp [stage] at h
  · have hl : (lib.tpm2_util_object_load_auth hist c.auth_hierarchy.ctx_path
        c.auth_hierarchy.auth_str c.auth_hierarchy.object).1 =
        tool_rc_success := by simpa using h1
    have hr : (lib.tpm2_session_restore
        (hist ++ [Call.object_load_auth c.auth_hierarchy.ctx_path
          c.auth_hierarchy.auth_str
          (lib.tpm2_util_object_load_auth hist c.auth_hierarchy.ctx_path
            c.auth_hierarchy.auth_str c.auth_hierarchy.object).1])
        c.policy_session.path c.policy_session.session).1 =
        tool_rc_success := by simpa using h3
    refine stages_prepend_one hist _ _ _ ?_ ?_
      (stages_prepend_one (hist ++ [_]) _ _ _ ?_ ?_
        (process_inputs_sessions_stages lib _ _))
    · rfl
    · simp [call_failed, hl]
    · rfl
    · simp [call_failed, hr]
  · have hl : (lib.tpm2_util_object_load_auth hist c.auth_hierarchy.ctx_path
        c.auth_hierarchy.auth_str c.auth_hierarchy.object).1 =
        tool_rc_success := by simpa using h1
    refine stages_prepend_one hist _ _ _ ?_ ?_
      (process_inputs_sessions_stages lib _ _)
    · rfl
    · simp [call_failed, hl]

theorem process_output_stages (lib : Lib) (c : tpm_nvundefine_ctx)
    (hist : List Call) :
    ∃ ext, (process_output lib c hist).trace = hist ++ ext ∧
      stage_ordered 4 4 ext := by
  unfold process_output
  cases hcp : c.cp_hash_path with
  | none =>
    simp only []
    split_ifs with h1 h2
    · exact absurd h1 (by simp)
    · exact ⟨[], by simp, by simp [stage_ordered]⟩
    · cases hrp : c.rp_hash_path with
      | none => exact ⟨[], by simp, by simp [stage_ordered]⟩
      | some q => exact ⟨_, rfl, by simp [stage_ordered, stage]⟩
  | some p =>
    simp only []
    split_ifs with h1 h2
    · exact ⟨_, rfl, by simp [stage_ordered, stage]⟩
    · exact ⟨_, rfl, by simp [stage_ordered, stage]⟩
    · have hok : lib.files_save_digest hist c.cp_hash p = true := by
        simpa using h1
      cases hrp : c.rp_hash_path with
      | none => exact ⟨_, rfl, by simp [stage_ordered, stage]⟩
      | some q =>
        refine ⟨_, List.append_assoc _ _ _, ?_⟩
        simp [stage_ordered, stage, call_failed, hok]

theorem stage_ordered_mono (lo hi hi1 : Nat) (ext : List Call)
    (h : stage_ordered lo hi ext) (hle : hi ≤ hi1) :
    stage_ordered lo hi1 ext := by
  obtain ⟨h1, h2, h3⟩ := h
  refine ⟨h1, ?_, h3⟩
  intro e he
  have := h2 e he
  omega

theorem stages_complete (ext : List Call) (m : Nat)
    (hmax : ∀ e ∈ ext, stage e ≤ m)
    (hhas : ∀ k, k < m → ∃ e ∈ ext, stage e = k) :
    ∀ e ∈ ext, ∀ k, k < stage e → ∃ e1 ∈ ext, stage e1 = k := by
  intro e he k hk
  have := hmax e he
  exact hhas k (by omega)

/-- C14: the library calls of every run begin with the NV public read and
come in stage order: the attribute probe, then the session-role assignment
(hierarchy load, policy-session restore, auxiliary setup), then the
parameter-hash computation, then the undefine call, then the digest writes.
The stages never decrease along the run; a call of a stage is made only when
every earlier stage has made a call; a call that reports a failure is the
last call of the run; and a call of a later stage is made only when
`check_options`, `process_inputs` and `nv_undefine`, as far as they come
before that stage, have returned success. -/
theorem run_stage_order (lib : Lib) (c : tpm_nvundefine_ctx)
    (hist : List Call) :
    ∃ ext, (tpm2_tool_onrun lib c hist).trace = hist ++ ext ∧
      ext.head? = some (Call.nv_read_public c.nv_index
        (lib.tpm2_util_nv_read_public hist c.nv_index).1
        (lib.tpm2_util_nv_read_public hist c.nv_index).2) ∧
      (ext.map stage).Pairwise (fun a b => a ≤ b) ∧
      (∀ e ∈ ext, stage e ≤ 4) ∧
      (∀ e ∈ ext, ∀ k, k < stage e → ∃ e1 ∈ ext, stage e1 = k) ∧
      (∀ e ∈ ext.dropLast, call_failed e = false) ∧
      ∃ r1 r2 r3 : Run, check_options lib c hist = r1 ∧
        process_inputs lib r1.ctx r1.trace = r2 ∧
        nv_undefine lib r2.ctx r2.trace = r3 ∧
        (∀ e ∈ ext, 1 ≤ stage e → r1.rc = tool_rc_success) ∧
        (∀ e ∈ ext, 2 ≤ stage e → r2.rc = tool_rc_success) ∧
        (∀ e ∈ ext, 4 ≤ stage e → r3.rc = tool_rc_success) := by
  obtain ⟨r1, r2, r3, hco, hpi, hnv, hc⟩ := onrun_cases lib c hist
  have ht1 := check_options_trace lib c hist
  rw [hco] at ht1
  obtain ⟨e2, ht2, ho2, hone2, hs2, hconv2⟩ :=
    process_inputs_stages lib r1.ctx r1.trace
  rw [hpi] at ht2 hs2 hconv2
  obtain ⟨u, hu, ht3⟩ := nv_undefine_call lib r2.ctx r2.trace
  have hfu := nv_undefine_trace lib r2.ctx r2.trace
  rw [hnv] at ht3 hfu
  obtain ⟨e4, ht4, ho4⟩ := process_output_stages lib r3.ctx r3.trace
  have hstu : stage u = 3 := by
    cases u <;> simp [is_undefine_call] at hu <;> rfl
  have hfailu : r3.rc = tool_rc_success → call_failed u = false := by
    intro h3
    have := List.append_cancel_left (ht3.symm.trans hfu)
    have hu1 := List.singleton_inj.mp this
    rw [hu1]
    split_ifs <;> simp [call_failed, h3]
  have hread0 : stage_ordered 0 0
      [Call.nv_read_public c.nv_index
        (lib.tpm2_util_nv_read_public hist c.nv_index).1
        (lib.tpm2_util_nv_read_public hist c.nv_index).2] := by
    simp [stage_ordered, stage]
  have hreadok : r1.rc = tool_rc_success →
      ∀ e ∈ [Call.nv_read_public c.nv_index
        (lib.tpm2_util_nv_read_public hist c.nv_index).1
        (lib.tpm2_util_nv_read_public hist c.nv_index).2],
        call_failed e = false := by
    intro h1 e he
    rw [List.mem_singleton] at he
    rw [he]
    have := check_options_read_ok lib c hist (by rw [hco]; exact h1)
    simp [call_failed, this]
  have hu3 : stage_ordered 3 3 [u] := by
    simp [stage_ordered, hstu]
  have hhas0 : ∀ rest : List Call, ∃ e ∈
      [Call.nv_read_public c.nv_index
        (lib.tpm2_util_nv_read_public hist c.nv_index).1
        (lib.tpm2_util_nv_read_public hist c.nv_index).2] ++ rest,
      stage e = 0 := by
    intro rest
    exact ⟨_, List.mem_append_left _ (List.mem_singleton.mpr rfl), rfl⟩
  rcases hc with ⟨-, he⟩ | ⟨h1, -, he⟩ | ⟨h1, h2, -, he⟩ | ⟨h1, h2, h3, he⟩
  · refine ⟨[Call.nv_read_public c.nv_index
      (lib.tpm2_util_nv_read_public hist c.nv_index).1
      (lib.tpm2_util_nv_read_public hist c.nv_index).2], by rw [he, ht1], rfl, hread0.1, ?_, ?_, hread0.2.2,
      r1, r2, r3, hco, hpi, hnv, ?_, ?_, ?_⟩
    · intro e hmem
      have := (hread0.2.1 e hmem).2
      omega
    · intro e hmem k hk
      have := (hread0.2.1 e hmem).2
      omega
    · intro e hmem hk
      have := (hread0.2.1 e hmem).2
      omega
    · intro e hmem hk
      have := (hread0.2.1 e hmem).2
      omega
    · intro e hmem hk
      have := (hread0.2.1 e hmem).2
      omega
  · have hord := stage_ordered_append 0 0 1 2 _ e2 hread0 (hreadok h1) ho2
      (by omega) (by omega) (by omega)
    refine ⟨[Call.nv_read_public c.nv_index
      (lib.tpm2_util_nv_read_public hist c.nv_index).1
      (lib.tpm2_util_nv_read_public hist c.nv_index).2] ++ e2, by rw [he, ht2, ht1, List.append_assoc], rfl,
      hord.1, ?_, ?_, hord.2.2, r1, r2, r3, hco, hpi, hnv, fun _ _ _ => h1,
      ?_, ?_⟩
    · intro e hmem
      have := (hord.2.1 e hmem).2
      omega
    · refine stages_complete _ 2 (fun e hmem => (hord.2.1 e hmem).2) ?_
      intro k hk
      have hk01 : k = 0 ∨ k = 1 := by omega
      rcases hk01 with rfl | rfl
      · exact hhas0 e2
      · obtain ⟨e, hmem, hst⟩ := hone2
        exact ⟨e, List.mem_append_right _ hmem, hst⟩
    · intro e hmem hk
      rcases List.mem_append.mp hmem with hx | hx
      · have := (hread0.2.1 e hx).2
        omega
      · have := (ho2.2.1 e hx).2
        exact hconv2 ⟨e, hx, by omega⟩
    · intro e hmem hk
      have := (hord.2.1 e hmem).2
      omega
  · obtain ⟨hnf2, etwo, hmem2, hst2⟩ := hs2 h2
    have hord23 := stage_ordered_append 1 2 3 3 e2 [u] ho2 hnf2 hu3
      (by omega) (by omega) (by omega)
    have hord := stage_ordered_append 0 0 1 3 _ (e2 ++ [u]) hread0 (hreadok h1)
      hord23 (by omega) (by omega) (by omega)
    refine ⟨[Call.nv_read_public c.nv_index
      (lib.tpm2_util_nv_read_public hist c.nv_index).1
      (lib.tpm2_util_nv_read_public hist c.nv_index).2] ++ (e2 ++ [u]),
      by rw [he, ht3, ht2, ht1, List.append_assoc, List.append_assoc],
      rfl, hord.1, ?_, ?_, hord.2.2, r1, r2, r3, hco, hpi, hnv,
      fun _ _ _ => h1, fun _ _ _ => h2, ?_⟩
    · intro e hmem
      have := (hord.2.1 e hmem).2
      omega
    · refine stages_complete _ 3 (fun e hmem => (hord.2.1 e hmem).2) ?_
      intro k hk
      have hk012 : k = 0 ∨ k = 1 ∨ k = 2 := by omega
      rcases hk012 with rfl | rfl | rfl
      · exact hhas0 (e2 ++ [u])
      · obtain ⟨e, hmem, hst⟩ := hone2
        exact ⟨e, List.mem_append_right _ (List.mem_append_left _ hmem), hst⟩
      · exact ⟨etwo, List.mem_append_right _ (List.mem_append_left _ hmem2),
          hst2⟩
    · intro e hmem hk
      have := (hord.2.1 e hmem).2
      omega
  · obtain ⟨hnf2, etwo, hmem2, hst2⟩ := hs2 h2
    have hnfu : ∀ e ∈ [u], call_failed e = false := by
      intro e hmem
      rw [List.mem_singleton] at hmem
      rw [hmem]
      exact hfailu h3
    have hord34 := stage_ordered_append 3 3 4 4 [u] e4 hu3 hnfu ho4
      (by omega) (by omega) (by omega)
    have hord24 := stage_ordered_append 1 2 3 4 e2 ([u] ++ e4) ho2 hnf2 hord34
      (by omega) (by omega) (by omega)
    have hord := stage_ordered_append 0 0 1 4 _ (e2 ++ ([u] ++ e4)) hread0
      (hreadok h1) hord24 (by omega) (by omega) (by omega)
    refine ⟨[Call.nv_read_public c.nv_index
      (lib.tpm2_util_nv_read_public hist c.nv_index).1
      (lib.tpm2_util_nv_read_public hist c.nv_index).2] ++ (e2 ++ ([u] ++ e4)),
      by rw [he, ht4, ht3, ht2, ht1, List.append_assoc,
        List.append_assoc, List.append_assoc], rfl, hord.1, ?_, ?_, hord.2.2,
      r1, r2, r3, hco, hpi, hnv, fun _ _ _ => h1, fun _ _ _ => h2,
      fun _ _ _ => h3⟩
    · intro e hmem
      exact (hord.2.1 e hmem).2
    · refine stages_complete _ 4 (fun e hmem => (hord.2.1 e hmem).2) ?_
      intro k hk
      have hk0123 : k = 0 ∨ k = 1 ∨ k = 2 ∨ k = 3 := by omega
      rcases hk0123 with rfl | rfl | rfl | rfl
      · exact hhas0 (e2 ++ ([u] ++ e4))
      · obtain ⟨e, hmem, hst⟩ := hone2
        exact ⟨e, List.mem_append_right _ (List.mem_append_left _ hmem), hst⟩
      · exact ⟨etwo, List.mem_append_right _ (List.mem_append_left _ hmem2),
          hst2⟩
      · exact ⟨u, List.mem_append_right _ (List.mem_append_right _
          (List.mem_append_left _ (List.mem_singleton.mpr rfl))), hstu⟩

end NvUndefine
